import Mathlib

/-!
# webStatusChecker: a verification development for `main.go`

The program reads a CSV file of monitoring targets, then runs a one-second
tick loop that starts a concurrent HTTP check for every target that is due,
under a buffered channel used as a counting semaphore.

Go strings are modelled by Lean strings, `int` by `Int` with explicit 64-bit
two's-complement wrapping where the program does arithmetic, `int64` likewise.
-/

namespace WebStatusChecker

/-! ## Machine integers -/

/-- Two's-complement reduction of an integer to a signed 64-bit value
(`int` and `int64` on the 64-bit platforms served by the program). -/
def wrap64 (x : Int) : Int :=
  (x + 2 ^ 63) % 2 ^ 64 - 2 ^ 63

/-- Signed 64-bit product, as computed by `timeNum *= coefficient`. -/
def mul64 (a b : Int) : Int := wrap64 (a * b)

/-- Signed 64-bit difference, as computed by `nowTime - start`. -/
def sub64 (a b : Int) : Int := wrap64 (a - b)

/-- The values a signed 64-bit integer can hold. -/
def inInt64 (x : Int) : Prop := -(2 ^ 63) ≤ x ∧ x < 2 ^ 63

instance (x : Int) : Decidable (inInt64 x) := by
  unfold inInt64
  infer_instance

/-! ## Standard-library routines used by the parser -/

/-- Value of a run of decimal digits, most significant first. -/
def digitsValue (ds : List Char) : Nat :=
  ds.foldl (fun n ch => n * 10 + (ch.toNat - 48)) 0

/-- The behaviour of `strconv.Atoi` on a 64-bit platform: an optional sign
followed by one or more ASCII decimal digits, whose value fits in `int`;
every other input is an error. -/
def atoi (s : String) : Option Int :=
  let body : Bool × List Char :=
    match s.data with
    | '-' :: r => (true, r)
    | '+' :: r => (false, r)
    | r => (false, r)
  if body.2 = [] ∨ body.2.all Char.isDigit = false then none
  else
    let v : Int := if body.1 then -(digitsValue body.2 : Int) else (digitsValue body.2 : Int)
    if inInt64 v then some v else none

/-- Pieces of a character sequence between occurrences of `sep`, the way
`strings.Split(s, "|")` cuts at a one-byte separator: the result always has
at least one piece. -/
def splitChars (sep : Char) : List Char → List (List Char)
  | [] => [[]]
  | c :: cs =>
    if c = sep then [] :: splitChars sep cs
    else
      match splitChars sep cs with
      | [] => [[c]]
      | w :: ws => (c :: w) :: ws

/-- The call `strings.Split(s, "|")`. -/
def splitBar (s : String) : List String :=
  (splitChars '|' s.data).map String.mk

/-! ## Targets and the configuration parser -/

/-- The struct `target`. -/
structure target where
  url : String
  statuses : List Int
  interval : Int
  deriving DecidableEq, Repr

/-- The errors `parseConfigFile` can return. -/
inductive ConfigError where
  /-- the error of `os.Open`, wrapped -/
  | openFile (msg : String)
  /-- an error of `reader.Read()`, wrapped -/
  | read (msg : String)
  /-- an error of `strconv.Atoi` on the given token, returned as it is -/
  | atoi (token : String)
  /-- `"the format of the access time interval is incorrect"`, wrapped -/
  | intervalFormat
  deriving DecidableEq, Repr

/-- What processing one CSV record does: a new target, a returned error, or
a run-time panic (index out of range). -/
inductive RecordResult where
  | target (t : target)
  | error (e : ConfigError)
  | panic
  deriving DecidableEq, Repr

/-- The loop `for i, str := range strStatuses` of `parseConfigFile`:
every token goes through `strconv.Atoi`, the first failure is returned. -/
def parseStatuses : List String → Except ConfigError (List Int)
  | [] => .ok []
  | str :: rest =>
    match atoi str with
    | none => .error (.atoi str)
    | some v =>
      match parseStatuses rest with
      | .error e => .error e
      | .ok vs => .ok (v :: vs)

/-- The `switch record[2][len(record[2])-1]` of `parseConfigFile`. -/
def coefficientOf (unit : Char) : Option Int :=
  if unit = 'd' then some (60 * 60 * 24)
  else if unit = 'h' then some (60 * 60)
  else if unit = 'm' then some 60
  else if unit = 's' then some 1
  else none

/-- The body of the `for` loop of `parseConfigFile` for one record returned
by `reader.Read()` (lines 120 to 149). -/
def parseRecord (record : List String) : RecordResult :=
  match record with
  | [] => .panic
  | url :: fields1 =>
    match fields1 with
    | [] => .panic
    | field1 :: fields2 =>
      match parseStatuses (splitBar field1) with
      | .error e => .error e
      | .ok intStatuses =>
        match fields2 with
        | [] => .panic
        | field2 :: _ =>
          match field2.data.getLast? with
          | none => .panic
          | some unit =>
            match coefficientOf unit with
            | none => .error .intervalFormat
            | some coefficient =>
              match atoi (String.mk field2.data.dropLast) with
              | none => .error (.atoi (String.mk field2.data.dropLast))
              | some timeNum =>
                .target { url := url, statuses := intStatuses, interval := mul64 timeNum coefficient }

/-- One result of `reader.Read()` before end of file. -/
inductive ReadResult where
  | record (fields : List String)
  | error (msg : String)
  deriving DecidableEq, Repr

/-- What `parseConfigFile` returns: the pair of the target list and the
error, or a run-time panic. -/
inductive ParseResult where
  | ok (targets : List target)
  | error (targets : List target) (e : ConfigError)
  | panic
  deriving DecidableEq, Repr

/-- The `for` loop of `parseConfigFile` over the successive results of
`reader.Read()`, `targets` being the list accumulated so far. -/
def parseLoop (targets : List target) : List ReadResult → ParseResult
  | [] => .ok targets
  | .error msg :: _ => .error targets (.read msg)
  | .record fields :: rest =>
    match parseRecord fields with
    | .panic => .panic
    | .error e => .error targets e
    | .target t => parseLoop (targets ++ [t]) rest

/-- The function `parseConfigFile`: `file` is what `os.Open(configPath)`
gives, the error message when the file cannot be opened, otherwise the
successive results of `reader.Read()` up to end of file. -/
def parseConfigFile (file : Except String (List ReadResult)) : ParseResult :=
  match file with
  | .error msg => .error [] (.openFile msg)
  | .ok reads => parseLoop [] reads

/-! ## The scheduler loop of `check` -/

/-- The constant `maxConnectionNum` of the package. -/
def maxConnectionNum : Nat := 200

/-- The struct `timeRecord`. -/
structure timeRecord where
  interval : Int
  start : Int
  deriving DecidableEq, Repr

/-- The slice `timeRecords` as `check` fills it before the loop: the
interval of each target converted to `int64`, `start` zero. -/
def initTimeRecords (targets : List target) : List timeRecord :=
  targets.map fun item => { interval := item.interval, start := 0 }

/-- The test `nowTime-timeRecords[i].start >= timeRecords[i].interval`. -/
def due (nowTime : Int) (r : timeRecord) : Bool :=
  decide (sub64 nowTime r.start ≥ r.interval)

/-- One iteration of `for i := range timeRecords` when the send on the
channel goes through: a due entry gets `start = nowTime` and index `i` is
handed to a new goroutine (recorded in the second component). -/
def visit (nowTime : Int) (st : List timeRecord × List Nat) (i : Nat) :
    List timeRecord × List Nat :=
  match st.1.get? i with
  | none => st
  | some r =>
    if due nowTime r then (st.1.set i { r with start := nowTime }, st.2 ++ [i])
    else st

/-- The whole loop `for i := range timeRecords` of one tick: the updated
records and the indices dispatched, in the order of the `go` statements. -/
def dispatchPass (nowTime : Int) (timeRecords : List timeRecord) :
    List timeRecord × List Nat :=
  (List.range timeRecords.length).foldl (visit nowTime) (timeRecords, [])

/-- State of the control thread of `check` followed tick by tick: the
capacity of the channel `maxConnection`, the slice `timeRecords`, the dispatch
passes made so far (each with its `nowTime` and the indices dispatched) and
whether the loop has reached `break`. -/
structure CheckRun where
  gateCap : Nat
  timeRecords : List timeRecord
  passes : List (Int × List Nat)
  returned : Bool
  deriving DecidableEq, Repr

/-- The outer `for` loop of `check` as the control thread runs it while
every send on the channel goes through and no goroutine ends the process,
for at most `fuel` iterations: what each tick dispatches and how the records
change. Sends that block and the fatal exit of a goroutine are in `step`.
`clock n` is the value of the `n`-th call of `time.Now().Unix()` and `reads`
counts the calls made so far. -/
def checkLoop (clock : Nat → Int) (limit allStart : Int) :
    Nat → Nat → CheckRun → CheckRun
  | 0, _, run => run
  | fuel + 1, reads, run =>
    let nowTime := clock reads
    if limit > 0 ∧ sub64 nowTime allStart ≥ limit then { run with returned := true }
    else
      let pass := dispatchPass nowTime run.timeRecords
      checkLoop clock limit allStart fuel (reads + 1)
        { run with timeRecords := pass.1, passes := run.passes ++ [(nowTime, pass.2)] }

/-- The control thread of the function `check`, its goroutines left aside
(see `step` for them): the channel is made with the capacity of the package
constant, the records are initialised, `allStart` is the first clock reading
and the loop runs as long as its sends go through. -/
def check (clock : Nat → Int) (targets : List target) (outputPath : String) (limit : Int)
    (fuel : Nat) : CheckRun :=
  checkLoop clock limit (clock 0) fuel 1
    { gateCap := maxConnectionNum, timeRecords := initTimeRecords targets,
      passes := [], returned := false }

/-! ## The checker goroutine -/

/-- The call `strconv.Itoa`, also the verb `%d`: decimal digits, a leading
minus sign for a negative number. -/
def itoa (n : Int) : String := toString n

/-- The loop that sets `flag`: whether some accepted code equals the
response's status code. -/
def statusAccepted (statusCode : Int) : List Int → Bool
  | [] => false
  | code :: rest => if code = statusCode then true else statusAccepted statusCode rest

/-- The loop that builds `codeString`; `len` is `len(targets[i].statuses)`,
`j` the index of the head of the remaining codes. -/
def codeStringLoop (len : Int) : Int → List Int → String → String
  | _, [], codeString => codeString
  | j, code :: rest, codeString =>
    let codeString := codeString ++ itoa code
    let codeString := if j ≠ len - 1 then codeString ++ "_or_" else codeString
    codeStringLoop len (j + 1) rest codeString

/-- The value of `codeString` after its loop. -/
def codeString (statuses : List Int) : String :=
  codeStringLoop statuses.length 0 statuses ""

/-- The body of the goroutine once `http.Get` has answered with status
`statusCode`: the strings it passes to `appendFile`. `timeString` renders
`time.Unix(nowTime, 0)` under the verb `%s`. -/
def checkerTask (timeString : Int → String) (t : target) (nowTime statusCode : Int) :
    List String :=
  if statusAccepted statusCode t.statuses then []
  else
    ["Warning: " ++ timeString nowTime ++ " " ++ t.url ++ " return status " ++
      itoa statusCode ++ " but expected " ++ codeString t.statuses ++ "\n"]

/-! ## The control thread, the goroutines and the channel, step by step -/

/-- A goroutine started by `check` that has not yet received from
`maxConnection`: its argument `i` and the `nowTime` it closes over. -/
structure Task where
  i : Nat
  nowTime : Int
  deriving DecidableEq, Repr

/-- Where the control thread of `check` stands. -/
inductive Phase where
  /-- at the head of the outer loop, about to read the clock -/
  | head
  /-- in the range loop, about to test index `i` -/
  | ranging (i : Nat)
  /-- index `i` was due and the send on the channel went through; the
  assignment to `start` and the `go` statement come next -/
  | spawning (i : Nat)
  /-- the loop reached `break` and `check` returned `nil` -/
  | returned
  /-- `log.Fatalf` ended the process -/
  | exited
  deriving DecidableEq, Repr

/-- State of the running program inside `check`. -/
structure Sys where
  /-- capacity of the channel `maxConnection` -/
  gateCap : Nat
  /-- the values buffered in `maxConnection` -/
  gate : List Bool
  timeRecords : List timeRecord
  allStart : Int
  nowTime : Int
  phase : Phase
  /-- the goroutines that have not yet received from the channel -/
  tasks : List Task
  /-- the strings passed to `appendFile` so far -/
  written : List String
  deriving DecidableEq, Repr

/-- The steps of the program. -/
inductive Action where
  /-- the control thread reads the clock at the head of the loop and tests the limit -/
  | tick (now : Int)
  /-- the control thread tests the next index of the range loop and, when it
  is due, sends on the channel; past the last index it sleeps -/
  | visit
  /-- the control thread, its send done, sets `start` and starts the goroutine -/
  | spawn
  /-- the `k`-th running goroutine gets the result of `http.Get` (an error or
  a status code) and runs on to its receive from the channel -/
  | respond (k : Nat) (resp : Except String Int)
  deriving Repr

/-- The state of `check` on entering its loop. -/
def checkStart (targets : List target) (allStart : Int) : Sys :=
  { gateCap := maxConnectionNum, gate := [], timeRecords := initTimeRecords targets,
    allStart := allStart, nowTime := 0, phase := .head, tasks := [], written := [] }

/-- One step of the program; `none` when the step cannot be taken in this
state, in particular when a send finds the channel full or a receive finds
it empty. -/
def step (timeString : Int → String) (targets : List target) (limit : Int) (s : Sys) :
    Action → Option Sys
  | .tick now =>
    match s.phase with
    | .head =>
      if limit > 0 ∧ sub64 now s.allStart ≥ limit then
        some { s with nowTime := now, phase := .returned }
      else some { s with nowTime := now, phase := .ranging 0 }
    | _ => none
  | .visit =>
    match s.phase with
    | .ranging i =>
      match s.timeRecords.get? i with
      | none => some { s with phase := .head }
      | some r =>
        if due s.nowTime r then
          if s.gate.length < s.gateCap then
            some { s with gate := s.gate ++ [true], phase := .spawning i }
          else none
        else some { s with phase := .ranging (i + 1) }
    | _ => none
  | .spawn =>
    match s.phase with
    | .spawning i =>
      match s.timeRecords.get? i with
      | none => none
      | some r =>
        some { s with timeRecords := s.timeRecords.set i { r with start := s.nowTime },
                      tasks := s.tasks ++ [{ i := i, nowTime := s.nowTime }],
                      phase := .ranging (i + 1) }
    | _ => none
  | .respond k resp =>
    if s.phase = .returned ∨ s.phase = .exited then none
    else
      match s.tasks.get? k with
      | none => none
      | some task =>
        match resp with
        | .error _ => some { s with phase := .exited }
        | .ok statusCode =>
          match targets.get? task.i with
          | none => none
          | some t =>
            match s.gate with
            | [] => none
            | _ :: rest =>
              some { s with gate := rest, tasks := s.tasks.eraseIdx k,
                            written := s.written ++ checkerTask timeString t task.nowTime statusCode }

/-- A sequence of steps. -/
def run (timeString : Int → String) (targets : List target) (limit : Int) :
    Sys → List Action → Option Sys
  | s, [] => some s
  | s, a :: rest =>
    match step timeString targets limit s a with
    | none => none
    | some s' => run timeString targets limit s' rest

/-- The slots of the channel held: one per running goroutine, one more
between a send and the `go` statement that follows it. -/
def Sys.held (s : Sys) : Nat :=
  s.tasks.length + (match s.phase with | .spawning _ => 1 | _ => 0)

/-- The steps the control thread takes in the range loop of one tick over the
records `timeRecords` when no send blocks: a test, followed for a due record by
the start of the goroutine, and at the end the step that leaves the loop. -/
def passActions (nowTime : Int) : List timeRecord → List Action
  | [] => [.visit]
  | r :: rest =>
    (if due nowTime r then [Action.visit, Action.spawn] else [Action.visit])
      ++ passActions nowTime rest

/-! ## `StatusCheck` -/

/-- What the program sees of its surroundings. -/
structure World where
  /-- the function `exists`: whether `os.Stat` succeeds on the path -/
  pathExists : String → Bool
  /-- the error of `os.MkdirAll(dir, 0755)`, if any -/
  mkdirAll : String → Option String
  /-- the result of `os.Open` on the path and of the reads that follow -/
  openCsv : String → Except String (List ReadResult)
  /-- the successive values of `time.Now().Unix()` -/
  clock : Nat → Int

/-- The call `filepath.Split` with separator `/`: the path is cut right
after its last separator. -/
def filepathSplit (path : String) : String × String :=
  let rev := path.data.reverse
  (String.mk (rev.dropWhile (fun c => c ≠ '/')).reverse,
   String.mk (rev.takeWhile (fun c => c ≠ '/')).reverse)

/-- How a call of `StatusCheck` ends. -/
inductive StatusCheckResult where
  /-- `os.MkdirAll` failed and its error was returned -/
  | mkdirFailed (msg : String)
  /-- `parseConfigFile` returned an error, returned wrapped; `check` is not called -/
  | configFailed (e : ConfigError)
  /-- `parseConfigFile` panicked -/
  | panicked
  /-- `check` was called on the parsed targets -/
  | checked (run : CheckRun)
  deriving DecidableEq, Repr

/-- The function `StatusCheck`. The loop of `check` is followed for at most
`fuel` iterations. -/
def StatusCheck (w : World) (configPath outputPath : String) (timeLimit : Int)
    (maxConnectionNum : Int) (fuel : Nat) : StatusCheckResult :=
  let mkdirError : Option String :=
    if outputPath ≠ "" then
      if !w.pathExists outputPath then
        let split := filepathSplit outputPath
        if split.2 ≠ "" then
          if !w.pathExists split.1 then w.mkdirAll split.1 else none
        else none
      else none
    else none
  match mkdirError with
  | some msg => .mkdirFailed msg
  | none =>
    match parseConfigFile (w.openCsv configPath) with
    | .panic => .panicked
    | .error _ e => .configFailed e
    | .ok targets => .checked (check w.clock targets outputPath timeLimit fuel)

/-- The dispatch passes a call of `StatusCheck` makes. -/
def StatusCheckResult.passes : StatusCheckResult → List (Int × List Nat)
  | .checked run => run.passes
  | _ => []

/-! ## The schedule under a simulated clock -/

/-- A simulated clock: `t0` when `check` reads `allStart`, `t0` again at the
first tick, then one second more at every tick. -/
def tickClock (t0 : Int) : Nat → Int :=
  fun n => t0 + ((n - 1 : Nat) : Int)

/-- The indices, in registry order, of the targets whose interval divides
the tick number `j`. -/
def dueAtTick (targets : List target) (j : Nat) : List Nat :=
  ((targets.enum).filter (fun p => decide ((j : Int) % p.2.interval = 0))).map Prod.fst

/-- The value of `start` of a record of interval `k` when tick `j` begins
under `tickClock t0`: zero before the first tick, afterwards the time of the
latest earlier tick whose number is a multiple of `k`. -/
def lastStart (t0 k : Int) : Nat → Int
  | 0 => 0
  | j + 1 => t0 + ((j : Int) - (j : Int) % k)

/-- The slice `timeRecords` when tick `j` begins under `tickClock t0`. -/
def recordsAtTick (t0 : Int) (targets : List target) (j : Nat) : List timeRecord :=
  targets.map fun t => { interval := t.interval, start := lastStart t0 t.interval j }

/-! ## Sample surroundings -/

/-- Surroundings in which every path exists, the configuration file yields
the given reads and the clock is `tickClock 1000`. -/
def sampleWorld (reads : List ReadResult) : World :=
  { pathExists := fun _ => true
    mkdirAll := fun _ => none
    openCsv := fun _ => .ok reads
    clock := tickClock 1000 }

/-- A target checked every second. -/
def sampleTarget : target :=
  { url := "http://one.test", statuses := [200], interval := 1 }

/-- Two targets, checked every second and every five seconds. -/
def sampleTargets : List target :=
  [{ url := "http://one.test", statuses := [200], interval := 1 },
   { url := "http://five.test", statuses := [200], interval := 5 }]

/-- A run of the program on `sampleTargets`: the first tick dispatches both
targets, the first goroutine gets status 404 and finishes, the second tick
finds the first target due again and sends on the channel. -/
def sampleActions : List Action :=
  [.tick 1000, .visit, .spawn, .visit, .spawn, .visit, .respond 0 (.ok 404), .tick 1001, .visit]

/-! ## The time limit in the step-by-step program -/

/-- The clock readings the control thread makes in a sequence of steps, in
order. -/
def tickReadings : List Action → List Int
  | [] => []
  | .tick now :: rest => now :: tickReadings rest
  | _ :: rest => tickReadings rest

/-- The number of dispatch passes begun in a sequence of steps: the ticks at
which the test `limit > 0` and `nowTime-allStart >= limit` fails, so that the
range loop is entered. -/
def passesMade (limit allStart : Int) (actions : List Action) : Nat :=
  ((tickReadings actions).filter
    (fun now => !decide (limit > 0 ∧ sub64 now allStart ≥ limit))).length

/-- The ticks of a sequence of steps read the clock in order: `clock 0` being
the reading of `allStart`, the `j`-th tick reads `clock (j + 1)`. -/
def readsClock (clock : Nat → Int) (actions : List Action) : Prop :=
  tickReadings actions
    = (List.range (tickReadings actions).length).map (fun j => clock (j + 1))

/-- Whether in some step a goroutine gets an error from `http.Get`. -/
def requestFails : List Action → Bool
  | [] => false
  | .respond _ (.error _) :: _ => true
  | _ :: rest => requestFails rest

/-- The steps of one tick over `timeRecords` when every goroutine is answered
with status `statusCode` before the control thread goes on: for a due record
the test with its send, the start of the goroutine and its answer; then the
step that leaves the range loop. -/
def answeredPass (nowTime statusCode : Int) : List timeRecord → List Action
  | [] => [.visit]
  | r :: rest =>
    (if due nowTime r then [Action.visit, Action.spawn, Action.respond 0 (.ok statusCode)]
      else [Action.visit])
      ++ answeredPass nowTime statusCode rest

/-- The steps of the loop of `check`, for at most `fuel` ticks, when every
goroutine is answered at once: at each tick the clock is read and, unless the
limit is reached, a pass is made. -/
def answeredLoop (clock : Nat → Int) (limit allStart statusCode : Int) :
    Nat → Nat → List timeRecord → List Action
  | 0, _, _ => []
  | fuel + 1, reads, timeRecords =>
    let nowTime := clock reads
    if limit > 0 ∧ sub64 nowTime allStart ≥ limit then [.tick nowTime]
    else
      .tick nowTime ::
        (answeredPass nowTime statusCode timeRecords ++
          answeredLoop clock limit allStart statusCode fuel (reads + 1)
            (dispatchPass nowTime timeRecords).1)

/-- The steps of a whole call of `check` on `targets` when every goroutine is
answered at once with `statusCode`. -/
def answeredRun (clock : Nat → Int) (targets : List target) (limit statusCode : Int)
    (fuel : Nat) : List Action :=
  answeredLoop clock limit (clock 0) statusCode fuel 1 (initTimeRecords targets)

/-- A clock that steps back between the reading of `allStart` (1010) and the
first tick (1000), then advances one second per tick. -/
def steppedBackClock : Nat → Int :=
  fun n => if n = 0 then 1010 else 999 + (n : Int)

/-- A clock whose readings stay in the 64-bit range but whose distance to the
reading of `allStart` does not: `-2 ^ 62` at the start and at the first tick,
above `2 ^ 62` afterwards. -/
def wrappingClock : Nat → Int :=
  fun n => if n ≤ 1 then -(2 ^ 62) else 2 ^ 62 + (n : Int)
/-! ## Machine arithmetic -/

theorem wrap64_of_inInt64 (x : Int) (h : inInt64 x) : wrap64 x = x := by
  unfold inInt64 at h
  unfold wrap64
  rw [Int.emod_eq_of_lt (by omega) (by omega)]
  omega

theorem inInt64_wrap64 (x : Int) : inInt64 (wrap64 x) := by
  unfold inInt64 wrap64
  have h1 := Int.emod_nonneg (x + 2 ^ 63) (show (2 ^ 64 : Int) ≠ 0 by norm_num)
  have h2 := Int.emod_lt_of_pos (x + 2 ^ 63) (show (0 : Int) < 2 ^ 64 by norm_num)
  constructor <;> omega

/-! ## The parser -/

theorem data_append_singleton (s : String) (c : Char) :
    (s ++ String.singleton c).data = s.data ++ [c] := by
  simp [String.singleton]

theorem coefficientOf_eq_some (unit : Char) (mult : Int) :
    coefficientOf unit = some mult ↔
      (unit = 'd' ∧ mult = 86400) ∨ (unit = 'h' ∧ mult = 3600) ∨
      (unit = 'm' ∧ mult = 60) ∨ (unit = 's' ∧ mult = 1) := by
  unfold coefficientOf
  by_cases hd : unit = 'd'
  · subst hd
    simp
    constructor
    · intro h; omega
    · intro h; omega
  · by_cases hh : unit = 'h'
    · subst hh
      simp
      constructor
      · intro h; omega
      · intro h; omega
    · by_cases hm : unit = 'm'
      · subst hm
        simp
        constructor
        · intro h; omega
        · intro h; omega
      · by_cases hs : unit = 's'
        · subst hs
          simp
          constructor
          · intro h; omega
          · intro h; omega
        · simp [hd, hh, hm, hs]

theorem coefficientOf_eq_none (unit : Char) :
    coefficientOf unit = none ↔ unit ∉ ['d', 'h', 'm', 's'] := by
  unfold coefficientOf
  by_cases hd : unit = 'd'
  · simp [hd]
  · by_cases hh : unit = 'h'
    · simp [hh]
    · by_cases hm : unit = 'm'
      · simp [hm]
      · by_cases hs : unit = 's'
        · simp [hs]
        · simp [hd, hh, hm, hs]


theorem parseRecord_target_inv (fields : List String) (t : target)
    (h : parseRecord fields = .target t) :
    ∃ url field1 field2 more unit coefficient timeNum intStatuses,
      fields = url :: field1 :: field2 :: more ∧
      parseStatuses (splitBar field1) = .ok intStatuses ∧
      field2.data.getLast? = some unit ∧
      coefficientOf unit = some coefficient ∧
      atoi (String.mk field2.data.dropLast) = some timeNum ∧
      t = { url := url, statuses := intStatuses, interval := mul64 timeNum coefficient } := by
  unfold parseRecord at h
  split at h
  · simp at h
  · rename_i url fields1
    split at h
    · simp at h
    · rename_i field1 fields2
      split at h
      · simp at h
      · rename_i intStatuses hs
        split at h
        · simp at h
        · rename_i field2 more
          split at h
          · simp at h
          · rename_i unit hu
            split at h
            · simp at h
            · rename_i coefficient hc
              split at h
              · simp at h
              · rename_i timeNum hn
                refine ⟨url, field1, field2, more, unit, coefficient, timeNum, intStatuses,
                  rfl, hs, hu, hc, hn, ?_⟩
                simp at h
                exact h.symm

theorem parseRecord_of_parts (url field1 num : String) (unit : Char) (more : List String)
    (intStatuses : List Int) (n mult : Int)
    (hstatus : parseStatuses (splitBar field1) = .ok intStatuses)
    (hnum : atoi num = some n)
    (hunit : coefficientOf unit = some mult) :
    parseRecord (url :: field1 :: (num ++ String.singleton unit) :: more)
      = .target { url := url, statuses := intStatuses, interval := wrap64 (n * mult) } := by
  have hd : (num ++ String.singleton unit).data = num.data ++ [unit] :=
    data_append_singleton num unit
  have hlast : (num.data ++ [unit]).getLast? = some unit := by simp
  have hdrop : String.mk (num.data ++ [unit]).dropLast = num := by simp
  simp only [parseRecord, hstatus, hd, hlast, hdrop, hunit, hnum, mul64]

theorem parseLoop_record_target (targets : List target) (fields : List String)
    (rest : List ReadResult) (t : target) (h : parseRecord fields = .target t) :
    parseLoop targets (.record fields :: rest) = parseLoop (targets ++ [t]) rest := by
  simp only [parseLoop, h]

/-- C1 (as amended): a record whose status field parses and whose third field
is the text of an integer `n` accepted by `strconv.Atoi` followed by a unit
`d`, `h`, `m` or `s` yields a target, the loop going on with it appended; the
interval of the target is `n` times 86400, 3600, 60 or 1 reduced to a signed
64-bit value, which is the exact product whenever that product fits. -/
theorem parseRecord_interval_wrapped (url field1 num : String) (unit : Char)
    (more : List String) (intStatuses : List Int) (n mult : Int)
    (hstatus : parseStatuses (splitBar field1) = .ok intStatuses)
    (hnum : atoi num = some n)
    (hunit : (unit = 'd' ∧ mult = 86400) ∨ (unit = 'h' ∧ mult = 3600) ∨
      (unit = 'm' ∧ mult = 60) ∨ (unit = 's' ∧ mult = 1)) :
    parseRecord (url :: field1 :: (num ++ String.singleton unit) :: more)
        = .target { url := url, statuses := intStatuses, interval := wrap64 (n * mult) } ∧
      (∀ targets rest,
        parseLoop targets (.record (url :: field1 :: (num ++ String.singleton unit) :: more) :: rest)
          = parseLoop
              (targets ++ [{ url := url, statuses := intStatuses, interval := wrap64 (n * mult) }])
              rest) ∧
      (inInt64 (n * mult) → wrap64 (n * mult) = n * mult) := by
  have hrec := parseRecord_of_parts url field1 num unit more intStatuses n mult hstatus hnum
    ((coefficientOf_eq_some unit mult).mpr hunit)
  exact ⟨hrec, fun targets rest => parseLoop_record_target targets _ rest _ hrec,
    wrap64_of_inInt64 _⟩

theorem parseRecord_interval_wrapped_witness :
    parseRecord ["http://example.test", "200|301", "10" ++ String.singleton 'm']
        = .target { url := "http://example.test", statuses := [200, 301], interval := wrap64 (10 * 60) } ∧
      (∀ targets rest,
        parseLoop targets
            (.record ["http://example.test", "200|301", "10" ++ String.singleton 'm'] :: rest)
          = parseLoop
              (targets ++
                [{ url := "http://example.test", statuses := [200, 301], interval := wrap64 (10 * 60) }])
              rest) ∧
      (inInt64 (10 * 60) → wrap64 (10 * 60) = 10 * 60) :=
  parseRecord_interval_wrapped "http://example.test" "200|301" "10" 'm' [] [200, 301] 10 60
    rfl (by decide) (by decide)

/-- C1 (as stated) fails: `strconv.Atoi` accepts `9223372036854775807`, and
with unit `d` the interval of the target is `-86400`, not the product. -/
theorem parseRecord_interval_overflow :
    atoi "9223372036854775807" = some 9223372036854775807 ∧
      parseRecord ["http://example.test", "200", "9223372036854775807d"]
        = .target { url := "http://example.test", statuses := [200], interval := -86400 } ∧
      (-86400 : Int) ≠ 9223372036854775807 * 86400 := by
  decide

/-- A first record with a single field makes the parser panic, whatever the
field and whatever follows. -/
theorem parseLoop_one_field (url : String) (rest : List ReadResult) :
    parseLoop [] (.record [url] :: rest) = .panic := by
  simp [parseLoop, parseRecord]

/-- A first record with two fields, the second a well-formed status list,
makes the parser panic. -/
theorem parseLoop_two_fields (url field1 : String) (intStatuses : List Int)
    (rest : List ReadResult) (h : parseStatuses (splitBar field1) = .ok intStatuses) :
    parseLoop [] (.record [url, field1] :: rest) = .panic := by
  simp [parseLoop, parseRecord, h]

/-- C3: a file whose first record has one field, or two fields the second of
which parses, makes `parseConfigFile` index past the end of the record: it
panics instead of returning an error. -/
theorem parseConfigFile_short_record_panics :
    parseConfigFile (.ok [.record ["http://example.test"]]) = .panic ∧
      parseConfigFile (.ok [.record ["http://example.test", "200"]]) = .panic := by
  decide

theorem parseLoop_ok_inv (reads : List ReadResult) :
    ∀ (acc targets : List target), parseLoop acc reads = .ok targets →
      ∃ new, targets = acc ++ new ∧
        ∀ t ∈ new, ∃ fields, ReadResult.record fields ∈ reads ∧ parseRecord fields = .target t := by
  induction reads with
  | nil =>
    intro acc targets h
    simp only [parseLoop, ParseResult.ok.injEq] at h
    exact ⟨[], by simp [h], by simp⟩
  | cons rd rest ih =>
    intro acc targets h
    cases rd with
    | error msg => simp [parseLoop] at h
    | record fields =>
      unfold parseLoop at h
      split at h
      · simp at h
      · simp at h
      · rename_i t ht
        obtain ⟨new, hnew, hall⟩ := ih (acc ++ [t]) targets h
        refine ⟨t :: new, by simp [hnew], ?_⟩
        intro t' ht'
        rcases List.mem_cons.mp ht' with rfl | hmem
        · exact ⟨fields, by simp, ht⟩
        · obtain ⟨f, hf, hp⟩ := hall t' hmem
          exact ⟨f, List.mem_cons_of_mem _ hf, hp⟩

theorem parseLoop_append (earlier : List ReadResult) (later : List ReadResult) :
    ∀ (acc targets : List target), parseLoop acc earlier = .ok targets →
      parseLoop acc (earlier ++ later) = parseLoop targets later := by
  induction earlier with
  | nil =>
    intro acc targets h
    simp only [parseLoop, ParseResult.ok.injEq] at h
    simp [h]
  | cons rd rest ih =>
    intro acc targets h
    cases rd with
    | error msg => simp [parseLoop] at h
    | record fields =>
      cases hrec : parseRecord fields with
      | panic => simp [parseLoop, hrec] at h
      | error e => simp [parseLoop, hrec] at h
      | target t =>
        simp only [List.cons_append, parseLoop, hrec] at h ⊢
        exact ih (acc ++ [t]) targets h

theorem parseStatuses_error (strs : List String) (e : ConfigError)
    (h : parseStatuses strs = .error e) : ∃ token, e = .atoi token := by
  induction strs with
  | nil => simp [parseStatuses] at h
  | cons str rest ih =>
    unfold parseStatuses at h
    split at h
    · exact ⟨str, by simpa using h.symm⟩
    · split at h
      · rename_i e' he'
        have : e' = e := by simpa using h
        subst this
        exact ih he'
      · simp at h

theorem parseRecord_bad_unit (url field1 field2 : String) (more : List String) (unit : Char)
    (hlast : field2.data.getLast? = some unit) (hunit : unit ∉ ['d', 'h', 'm', 's']) :
    ∃ e, parseRecord (url :: field1 :: field2 :: more) = .error e ∧
      (e = .intervalFormat ∨ ∃ token, e = .atoi token) := by
  have hc : coefficientOf unit = none := (coefficientOf_eq_none unit).mpr hunit
  unfold parseRecord
  simp only
  split
  · rename_i e he
    exact ⟨e, rfl, Or.inr (parseStatuses_error _ e he)⟩
  · simp only [hlast, hc]
    exact ⟨_, rfl, Or.inl rfl⟩

/-- C9 (as amended): every target of a successful parse comes from a record
whose third field is the text of an integer `n` followed by a unit; its
interval is `n` times the unit's multiplier reduced to a signed 64-bit value,
so it lies in the 64-bit range, and it is the exact non-negative product
whenever `n` is non-negative and the product is below `2 ^ 63`. -/
theorem parseConfigFile_interval_range (file : Except String (List ReadResult))
    (targets : List target) (h : parseConfigFile file = .ok targets) :
    ∀ t ∈ targets, ∃ reads fields num unit n mult,
      file = .ok reads ∧ ReadResult.record fields ∈ reads ∧
      parseRecord fields = .target t ∧
      fields.get? 2 = some (num ++ String.singleton unit) ∧
      atoi num = some n ∧
      ((unit = 'd' ∧ mult = 86400) ∨ (unit = 'h' ∧ mult = 3600) ∨
        (unit = 'm' ∧ mult = 60) ∨ (unit = 's' ∧ mult = 1)) ∧
      t.interval = wrap64 (n * mult) ∧ inInt64 t.interval ∧
      (0 ≤ n → n * mult < 2 ^ 63 → t.interval = n * mult ∧ 0 ≤ t.interval) := by
  intro t ht
  cases file with
  | error msg => simp [parseConfigFile] at h
  | ok reads =>
    simp only [parseConfigFile] at h
    obtain ⟨new, hnew, hall⟩ := parseLoop_ok_inv reads [] targets h
    simp only [List.nil_append] at hnew
    subst hnew
    obtain ⟨fields, hmem, hrec⟩ := hall t ht
    obtain ⟨url, field1, field2, more, unit, coefficient, timeNum, intStatuses, hf, -, hlast,
      hcoef, hnum, hteq⟩ := parseRecord_target_inv fields t hrec
    have hsplit : field2 = String.mk field2.data.dropLast ++ String.singleton unit := by
      apply String.ext
      rw [data_append_singleton]
      exact (List.dropLast_append_getLast? unit (by simp [hlast])).symm
    have htable := (coefficientOf_eq_some unit coefficient).mp hcoef
    have hint : t.interval = wrap64 (timeNum * coefficient) := by
      rw [hteq]; rfl
    refine ⟨reads, fields, String.mk field2.data.dropLast, unit, timeNum, coefficient, rfl, hmem,
      hrec, ?_, hnum, htable, hint, ?_, ?_⟩
    · rw [hf]
      simp only [List.get?_cons_succ, List.get?_cons_zero]
      exact congrArg some hsplit
    · rw [hint]
      exact inInt64_wrap64 _
    · intro hn hlt
      have hpos : 0 < coefficient := by
        rcases htable with ⟨-, h⟩ | ⟨-, h⟩ | ⟨-, h⟩ | ⟨-, h⟩ <;> omega
      have hprod : 0 ≤ timeNum * coefficient := Int.mul_nonneg hn (le_of_lt hpos)
      have hin : inInt64 (timeNum * coefficient) := ⟨by omega, hlt⟩
      rw [hint, wrap64_of_inInt64 _ hin]
      exact ⟨rfl, hprod⟩

theorem parseConfigFile_interval_range_witness :
    ∃ reads fields num unit n mult,
      (.ok [.record ["http://example.test", "200", "2m"]] : Except String (List ReadResult))
        = .ok reads ∧ ReadResult.record fields ∈ reads ∧
      parseRecord fields
        = .target { url := "http://example.test", statuses := [200], interval := 120 } ∧
      fields.get? 2 = some (num ++ String.singleton unit) ∧
      atoi num = some n ∧
      ((unit = 'd' ∧ mult = 86400) ∨ (unit = 'h' ∧ mult = 3600) ∨
        (unit = 'm' ∧ mult = 60) ∨ (unit = 's' ∧ mult = 1)) ∧
      (120 : Int) = wrap64 (n * mult) ∧ inInt64 (120 : Int) ∧
      (0 ≤ n → n * mult < 2 ^ 63 → (120 : Int) = n * mult ∧ 0 ≤ (120 : Int)) :=
  parseConfigFile_interval_range (.ok [.record ["http://example.test", "200", "2m"]])
    [{ url := "http://example.test", statuses := [200], interval := 120 }] (by decide)
    { url := "http://example.test", statuses := [200], interval := 120 } (by decide)

/-- C9 (as stated) fails: the record `http://example.test,200,-5s` is parsed
without error and its target has interval `-5`. -/
theorem parseConfigFile_negative_interval :
    parseConfigFile (.ok [.record ["http://example.test", "200", "-5s"]])
        = .ok [{ url := "http://example.test", statuses := [200], interval := -5 }] ∧
      ¬ (0 ≤ (-5 : Int)) := by
  decide

theorem StatusCheck_of_parse_error (w : World) (configPath outputPath : String)
    (timeLimit maxConnectionNum : Int) (fuel : Nat) (targets : List target) (e : ConfigError)
    (h : parseConfigFile (w.openCsv configPath) = .error targets e) :
    StatusCheck w configPath outputPath timeLimit maxConnectionNum fuel = .configFailed e ∨
      ∃ msg, StatusCheck w configPath outputPath timeLimit maxConnectionNum fuel
        = .mkdirFailed msg := by
  unfold StatusCheck
  simp only [h]
  split
  · rename_i msg _
    exact Or.inr ⟨msg, rfl⟩
  · exact Or.inl rfl

/-- C2 (as amended): when the records before some record are all parsed (to
`targets`) and that record has a non-empty third field whose last character
is not `d`, `h`, `m` or `s`, `parseConfigFile` returns an error together with
the targets of the earlier records (not an empty list), and `StatusCheck`
returns an error without making any dispatch pass. -/
theorem StatusCheck_bad_unit_fails (w : World) (configPath outputPath : String)
    (timeLimit maxConnectionNum : Int) (fuel : Nat)
    (earlier rest : List ReadResult) (url field1 field2 : String) (more : List String)
    (targets : List target) (unit : Char)
    (hopen : w.openCsv configPath
      = .ok (earlier ++ ReadResult.record (url :: field1 :: field2 :: more) :: rest))
    (hearlier : parseLoop [] earlier = .ok targets)
    (hlast : field2.data.getLast? = some unit)
    (hunit : unit ∉ ['d', 'h', 'm', 's']) :
    ∃ e, parseConfigFile (w.openCsv configPath) = .error targets e ∧
      (e = .intervalFormat ∨ ∃ token, e = .atoi token) ∧
      (StatusCheck w configPath outputPath timeLimit maxConnectionNum fuel = .configFailed e ∨
        ∃ msg, StatusCheck w configPath outputPath timeLimit maxConnectionNum fuel
          = .mkdirFailed msg) ∧
      (StatusCheck w configPath outputPath timeLimit maxConnectionNum fuel).passes = [] := by
  obtain ⟨e, hrec, hkind⟩ := parseRecord_bad_unit url field1 field2 more unit hlast hunit
  have hparse : parseConfigFile (w.openCsv configPath) = .error targets e := by
    rw [hopen]
    simp only [parseConfigFile]
    rw [parseLoop_append earlier _ [] targets hearlier]
    simp only [parseLoop, hrec]
  have hsc := StatusCheck_of_parse_error w configPath outputPath timeLimit maxConnectionNum fuel
    targets e hparse
  refine ⟨e, hparse, hkind, hsc, ?_⟩
  rcases hsc with h | ⟨msg, h⟩ <;> rw [h] <;> rfl

theorem StatusCheck_bad_unit_fails_witness :
    ∃ e, parseConfigFile
          ((sampleWorld ([ReadResult.record ["http://a.test", "200", "1m"]] ++
            ReadResult.record ("http://b.test" :: "200" :: "1x" :: []) :: [])).openCsv "config.csv")
        = .error [{ url := "http://a.test", statuses := [200], interval := 60 }] e ∧
      (e = .intervalFormat ∨ ∃ token, e = .atoi token) ∧
      (StatusCheck (sampleWorld ([ReadResult.record ["http://a.test", "200", "1m"]] ++
            ReadResult.record ("http://b.test" :: "200" :: "1x" :: []) :: []))
          "config.csv" "" 10 200 20 = .configFailed e ∨
        ∃ msg, StatusCheck (sampleWorld ([ReadResult.record ["http://a.test", "200", "1m"]] ++
            ReadResult.record ("http://b.test" :: "200" :: "1x" :: []) :: []))
          "config.csv" "" 10 200 20 = .mkdirFailed msg) ∧
      (StatusCheck (sampleWorld ([ReadResult.record ["http://a.test", "200", "1m"]] ++
            ReadResult.record ("http://b.test" :: "200" :: "1x" :: []) :: []))
          "config.csv" "" 10 200 20).passes = [] :=
  StatusCheck_bad_unit_fails
    (sampleWorld ([ReadResult.record ["http://a.test", "200", "1m"]] ++
      ReadResult.record ("http://b.test" :: "200" :: "1x" :: []) :: []))
    "config.csv" "" 10 200 20 [ReadResult.record ["http://a.test", "200", "1m"]] []
    "http://b.test" "200" "1x" [] [{ url := "http://a.test", statuses := [200], interval := 60 }]
    'x' (by rfl) (by decide) (by decide) (by decide)

/-- C2 (as stated) fails: with a well-formed first record and a second record
whose interval is `1x`, `parseConfigFile` returns the error together with the
first record's target, not an empty list. -/
theorem parseConfigFile_bad_unit_keeps_targets :
    parseConfigFile
        (.ok [.record ["http://a.test", "200", "1m"], .record ["http://b.test", "200", "1x"]])
      = .error [{ url := "http://a.test", statuses := [200], interval := 60 }] .intervalFormat ∧
      [({ url := "http://a.test", statuses := [200], interval := 60 } : target)] ≠ [] := by
  decide

/-- C4: called with `maxConnectionNum = 5`, `StatusCheck` runs `check` with a
channel of capacity 200, the package constant: the argument is not used. -/
theorem StatusCheck_ignores_maxConnectionNum :
    ∃ run,
      StatusCheck (sampleWorld [.record ["http://example.test", "200", "1s"]])
          "config.csv" "" 3 5 10 = .checked run ∧
      run.gateCap = 200 ∧ run.gateCap ≠ 5 := by
  refine ⟨_, rfl, ?_, ?_⟩ <;> decide

theorem checkLoop_gateCap (clock : Nat → Int) (limit allStart : Int) (fuel : Nat) :
    ∀ (reads : Nat) (run0 : CheckRun),
      (checkLoop clock limit allStart fuel reads run0).gateCap = run0.gateCap := by
  induction fuel with
  | zero => intro reads run0; rfl
  | succ fuel ih =>
    intro reads run0
    unfold checkLoop
    simp only
    split
    · rfl
    · rw [ih]

/-- Whatever its arguments, `StatusCheck` runs `check` with a channel of
capacity 200: the value of its parameter `maxConnectionNum` plays no part. -/
theorem StatusCheck_gateCap (w : World) (configPath outputPath : String)
    (timeLimit maxConnectionNum : Int) (fuel : Nat) (run : CheckRun)
    (h : StatusCheck w configPath outputPath timeLimit maxConnectionNum fuel = .checked run) :
    run.gateCap = 200 := by
  unfold StatusCheck at h
  simp only at h
  split at h
  · simp at h
  · split at h
    · simp at h
    · simp at h
    · simp only [StatusCheckResult.checked.injEq] at h
      subst h
      unfold check
      rw [checkLoop_gateCap]
      rfl

/-! ## The checker goroutine -/

theorem statusAccepted_iff (statusCode : Int) (statuses : List Int) :
    statusAccepted statusCode statuses = true ↔ statusCode ∈ statuses := by
  induction statuses with
  | nil => simp [statusAccepted]
  | cons code rest ih =>
    unfold statusAccepted
    by_cases h : code = statusCode
    · simp [h]
    · have h' : ¬ statusCode = code := fun e => h e.symm
      simp [h, h', ih]

theorem codeStringLoop_eq_go (len : Int) (rest : List Int) :
    ∀ (j : Int) (code : Int) (acc : String), j + (rest.length + 1) = len →
      codeStringLoop len j (code :: rest) acc
        = String.intercalate.go (acc ++ itoa code) "_or_" (rest.map itoa) := by
  induction rest with
  | nil =>
    intro j code acc hj
    have hlast : j = len - 1 := by simp at hj; omega
    simp [codeStringLoop, hlast, String.intercalate.go]
  | cons code2 rest ih =>
    intro j code acc hj
    have hne : j ≠ len - 1 := by
      simp only [List.length_cons, Nat.cast_add, Nat.cast_one] at hj
      omega
    have hj' : j + 1 + (rest.length + 1) = len := by
      simp only [List.length_cons, Nat.cast_add, Nat.cast_one] at hj
      omega
    rw [codeStringLoop]
    simp only [hne, ne_eq, not_false_eq_true, if_true]
    rw [ih (j + 1) code2 _ hj']
    simp [String.intercalate.go]

theorem codeString_eq_intercalate (statuses : List Int) :
    codeString statuses = String.intercalate "_or_" (statuses.map itoa) := by
  cases statuses with
  | nil => simp [codeString, codeStringLoop, String.intercalate]
  | cons code rest =>
    unfold codeString
    rw [codeStringLoop_eq_go _ rest 0 code "" (by simp)]
    simp [String.intercalate]

/-- C5: for a target dispatched at tick time `nowTime` and a response with
status `statusCode`, the goroutine passes nothing to `appendFile` when the
status is among the accepted ones (at any position), and otherwise exactly one
string: `Warning: `, the time string of `nowTime`, a space, the URL,
` return status `, the status in decimal, ` but expected `, the accepted
statuses in decimal in their order joined by `_or_`, and a newline. -/
theorem checkerTask_writes (timeString : Int → String) (t : target)
    (nowTime statusCode : Int) :
    checkerTask timeString t nowTime statusCode =
      if statusCode ∈ t.statuses then []
      else
        ["Warning: " ++ timeString nowTime ++ " " ++ t.url ++ " return status " ++
          toString statusCode ++ " but expected " ++
          String.intercalate "_or_" (t.statuses.map toString) ++ "\n"] := by
  unfold checkerTask
  by_cases h : statusCode ∈ t.statuses
  · simp [h, (statusAccepted_iff statusCode t.statuses).mpr h]
  · have hf : statusAccepted statusCode t.statuses = false := by
      cases hb : statusAccepted statusCode t.statuses with
      | false => rfl
      | true => exact absurd ((statusAccepted_iff statusCode t.statuses).mp hb) h
    rw [if_neg h, hf, codeString_eq_intercalate]
    rfl

/-! ## One dispatch pass -/

theorem visit_at (nowTime : Int) (pre tail : List timeRecord) (r : timeRecord) (acc : List Nat) :
    visit nowTime (pre ++ r :: tail, acc) pre.length
      = (pre ++ (if due nowTime r then { r with start := nowTime } else r) :: tail,
         if due nowTime r then acc ++ [pre.length] else acc) := by
  unfold visit
  have hget : (pre ++ r :: tail).get? pre.length = some r := by
    rw [List.get?_eq_getElem?, List.getElem?_append_right (le_refl _)]
    simp
  simp only [hget]
  by_cases hd : due nowTime r = true
  · simp [hd]
  · simp [hd]

theorem foldl_visit (nowTime : Int) (suf : List timeRecord) :
    ∀ (pre tail : List timeRecord) (acc : List Nat),
      (List.range' pre.length suf.length).foldl (visit nowTime) (pre ++ (suf ++ tail), acc)
        = (pre ++ (suf.map (fun r => if due nowTime r then { r with start := nowTime } else r)
              ++ tail),
           acc ++ ((suf.enumFrom pre.length).filter (fun p => due nowTime p.2)).map Prod.fst) := by
  induction suf with
  | nil => intro pre tail acc; simp
  | cons r suf ih =>
    intro pre tail acc
    simp only [List.length_cons, List.range'_succ, List.foldl_cons, List.cons_append]
    rw [visit_at]
    have hlen : (pre ++ [if due nowTime r then { r with start := nowTime } else r]).length
        = pre.length + 1 := by simp
    have hre : pre ++ (if due nowTime r then { r with start := nowTime } else r) :: (suf ++ tail)
        = (pre ++ [if due nowTime r then { r with start := nowTime } else r]) ++ (suf ++ tail) := by
      simp
    rw [hre, ← hlen, ih]
    by_cases hd : due nowTime r = true
    · simp [hd, List.enumFrom_cons]
    · simp [hd, List.enumFrom_cons]

theorem dispatchPass_eq (nowTime : Int) (timeRecords : List timeRecord) :
    dispatchPass nowTime timeRecords
      = (timeRecords.map (fun r => if due nowTime r then { r with start := nowTime } else r),
         ((timeRecords.enum).filter (fun p => due nowTime p.2)).map Prod.fst) := by
  have h := foldl_visit nowTime timeRecords [] [] []
  simp only [List.length_nil, List.nil_append, List.append_nil] at h
  unfold dispatchPass
  rw [List.range_eq_range', h]
  rfl

theorem foldl_visit_upto (nowTime : Int) (timeRecords : List timeRecord) (i : Nat)
    (hi : i ≤ timeRecords.length) :
    ((List.range i).foldl (visit nowTime) (timeRecords, [])).1.get? i = timeRecords.get? i := by
  have h := foldl_visit nowTime (timeRecords.take i) [] (timeRecords.drop i) []
  simp only [List.length_nil, List.nil_append, List.take_append_drop, List.length_take,
    Nat.min_eq_left hi] at h
  rw [List.range_eq_range', h]
  simp only [List.get?_eq_getElem?]
  rw [List.getElem?_append_right (by simp [hi])]
  simp [hi]

theorem mem_dispatched_iff (nowTime : Int) (timeRecords : List timeRecord) (i : Nat) :
    i ∈ (dispatchPass nowTime timeRecords).2
      ↔ ∃ r, timeRecords.get? i = some r ∧ due nowTime r = true := by
  rw [dispatchPass_eq]
  simp only [List.mem_map, List.mem_filter, List.mem_enum_iff_getElem?, List.get?_eq_getElem?]
  constructor
  · rintro ⟨p, ⟨hp, hd⟩, rfl⟩
    exact ⟨p.2, hp, hd⟩
  · rintro ⟨r, hr, hd⟩
    exact ⟨(i, r), ⟨hr, hd⟩, rfl⟩

theorem dispatched_pairwise_lt (nowTime : Int) (timeRecords : List timeRecord) :
    List.Pairwise (fun a b => a < b) (dispatchPass nowTime timeRecords).2 := by
  rw [dispatchPass_eq]
  have hsub : (((timeRecords.enum).filter (fun p => due nowTime p.2)).map Prod.fst).Sublist
      ((timeRecords.enum).map Prod.fst) :=
    List.Sublist.map Prod.fst (List.filter_sublist _)
  rw [List.enum_map_fst] at hsub
  exact List.Pairwise.sublist hsub (List.pairwise_lt_range _)

/-- C10: one tick at time `nowTime` on the schedule state. For an index `i`
holding record `r` before the tick: the record is still `r` when the loop
reaches `i`; `i` is dispatched exactly when `nowTime - r.start >= r.interval`
(64-bit subtraction); no index is dispatched twice, and the dispatches come in
increasing index order; after the tick the record at `i` has the same
interval, `start = nowTime` if `i` was dispatched and the old `start`
otherwise; the number of records does not change. -/
theorem dispatchPass_tick (nowTime : Int) (timeRecords : List timeRecord) (i : Nat)
    (r : timeRecord) (hr : timeRecords.get? i = some r) :
    ((List.range i).foldl (visit nowTime) (timeRecords, [])).1.get? i = some r ∧
      (i ∈ (dispatchPass nowTime timeRecords).2 ↔ sub64 nowTime r.start ≥ r.interval) ∧
      (dispatchPass nowTime timeRecords).2.Nodup ∧
      List.Pairwise (fun a b => a < b) (dispatchPass nowTime timeRecords).2 ∧
      (dispatchPass nowTime timeRecords).1.length = timeRecords.length ∧
      ∃ r', (dispatchPass nowTime timeRecords).1.get? i = some r' ∧
        r'.interval = r.interval ∧
        (i ∈ (dispatchPass nowTime timeRecords).2 → r'.start = nowTime) ∧
        (i ∉ (dispatchPass nowTime timeRecords).2 → r'.start = r.start) := by
  have hi : i < timeRecords.length := by
    rw [List.get?_eq_getElem?] at hr
    exact (List.getElem?_eq_some_iff.mp hr).1
  have hmem : i ∈ (dispatchPass nowTime timeRecords).2 ↔ due nowTime r = true := by
    rw [mem_dispatched_iff]
    constructor
    · rintro ⟨r0, hr0, hd⟩
      rw [hr] at hr0
      cases hr0
      exact hd
    · intro hd
      exact ⟨r, hr, hd⟩
  have hpair := dispatched_pairwise_lt nowTime timeRecords
  refine ⟨?_, ?_, ?_, hpair, ?_, ?_⟩
  · rw [foldl_visit_upto nowTime timeRecords i (le_of_lt hi)]
    exact hr
  · rw [hmem]
    simp [due]
  · exact List.Pairwise.imp (fun h => Nat.ne_of_lt h) hpair
  · rw [dispatchPass_eq]
    simp
  · refine ⟨if due nowTime r then { r with start := nowTime } else r, ?_, ?_, ?_, ?_⟩
    · rw [dispatchPass_eq]
      simp only [List.get?_eq_getElem?, List.getElem?_map]
      rw [List.get?_eq_getElem?] at hr
      rw [hr]
      rfl
    · by_cases hd : due nowTime r = true <;> simp [hd]
    · intro h
      simp [hmem.mp h]
    · intro h
      have hd : ¬ due nowTime r = true := fun hd => h (hmem.mpr hd)
      simp [hd]

theorem dispatchPass_tick_witness :
    ((List.range 1).foldl (visit 1005)
          ([{ interval := 1, start := 1004 }, { interval := 5, start := 1000 },
            { interval := 60, start := 1000 }], [])).1.get? 1
        = some { interval := 5, start := 1000 } ∧
      (1 ∈ (dispatchPass 1005 [{ interval := 1, start := 1004 }, { interval := 5, start := 1000 },
            { interval := 60, start := 1000 }]).2
        ↔ sub64 1005 (timeRecord.mk 5 1000).start ≥ (timeRecord.mk 5 1000).interval) ∧
      (dispatchPass 1005 [{ interval := 1, start := 1004 }, { interval := 5, start := 1000 },
            { interval := 60, start := 1000 }]).2.Nodup ∧
      List.Pairwise (fun a b => a < b)
        (dispatchPass 1005 [{ interval := 1, start := 1004 }, { interval := 5, start := 1000 },
            { interval := 60, start := 1000 }]).2 ∧
      (dispatchPass 1005 [{ interval := 1, start := 1004 }, { interval := 5, start := 1000 },
            { interval := 60, start := 1000 }]).1.length
        = [timeRecord.mk 1 1004, timeRecord.mk 5 1000, timeRecord.mk 60 1000].length ∧
      ∃ r', (dispatchPass 1005 [{ interval := 1, start := 1004 }, { interval := 5, start := 1000 },
            { interval := 60, start := 1000 }]).1.get? 1 = some r' ∧
        r'.interval = (timeRecord.mk 5 1000).interval ∧
        (1 ∈ (dispatchPass 1005 [{ interval := 1, start := 1004 }, { interval := 5, start := 1000 },
            { interval := 60, start := 1000 }]).2 → r'.start = 1005) ∧
        (1 ∉ (dispatchPass 1005 [{ interval := 1, start := 1004 }, { interval := 5, start := 1000 },
            { interval := 60, start := 1000 }]).2 → r'.start = (timeRecord.mk 5 1000).start) :=
  dispatchPass_tick 1005
    [{ interval := 1, start := 1004 }, { interval := 5, start := 1000 },
      { interval := 60, start := 1000 }] 1 { interval := 5, start := 1000 } (by decide)

/-! ## Clock arithmetic -/

theorem sub64_of_le (a b : Int) (hb : 0 ≤ b) (hab : b ≤ a) (ha : a < 2 ^ 63) :
    sub64 a b = a - b := by
  unfold sub64
  exact wrap64_of_inInt64 _ ⟨by omega, by omega⟩

theorem clock_lower_bound (clock : Nat → Int) (hfirst : clock 0 ≤ clock 1)
    (hstep : ∀ n, 1 ≤ n → clock n + 1 ≤ clock (n + 1)) (j : Nat) :
    clock 0 + j ≤ clock (j + 1) := by
  induction j with
  | zero => simpa using hfirst
  | succ j ih =>
    have h := hstep (j + 1) (by omega)
    push_cast
    omega

/-! ## The schedule under the simulated clock -/

theorem emod_succ (j k : Int) (hk : 1 ≤ k) :
    (j + 1) % k = if j % k + 1 = k then 0 else j % k + 1 := by
  have hr0 := Int.emod_nonneg j (show k ≠ 0 by omega)
  have hr1 := Int.emod_lt_of_pos j (show 0 < k by omega)
  have hj : j = k * (j / k) + j % k := (Int.ediv_add_emod j k).symm
  by_cases h : j % k + 1 = k
  · rw [if_pos h]
    have e : j + 1 = k * (j / k + 1) := by
      rw [Int.mul_add, Int.mul_one]
      omega
    rw [e]
    exact Int.mul_emod_right _ _
  · rw [if_neg h]
    have e : j + 1 = (j % k + 1) + k * (j / k) := by omega
    rw [e, Int.add_mul_emod_self_left]
    exact Int.emod_eq_of_lt (by omega) (by omega)

theorem due_recordsAtTick (t0 k : Int) (j : Nat) (hk : 1 ≤ k) (hkt : k ≤ t0)
    (hrange : t0 + j < 2 ^ 63) :
    due (t0 + j) { interval := k, start := lastStart t0 k j } = decide ((j : Int) % k = 0) := by
  cases j with
  | zero =>
    have hs : sub64 (t0 + ((0 : Nat) : Int)) 0 = t0 := by
      unfold sub64
      rw [wrap64_of_inInt64 _ ⟨by simp; omega, by simpa using hrange⟩]
      simp
    simp only [due, lastStart, hs]
    simp [hkt]
  | succ j =>
    have hr0 := Int.emod_nonneg (j : Int) (show k ≠ 0 by omega)
    have hr1 := Int.emod_lt_of_pos (j : Int) (show 0 < k by omega)
    have hs : sub64 (t0 + ((j + 1 : Nat) : Int)) (t0 + ((j : Int) - (j : Int) % k))
        = 1 + (j : Int) % k := by
      unfold sub64
      push_cast
      rw [wrap64_of_inInt64 _ ⟨by omega, by push_cast at hrange; omega⟩]
      omega
    simp only [due, lastStart, hs]
    have hmod := emod_succ (j : Int) k hk
    push_cast
    rw [hmod]
    by_cases h : (j : Int) % k + 1 = k
    · simp [h]
      omega
    · simp [h]
      constructor
      · intro hge; omega
      · intro h0; omega

theorem lastStart_succ (t0 k : Int) (j : Nat) (hk : 1 ≤ k) (hkt : k ≤ t0)
    (hrange : t0 + j < 2 ^ 63) :
    (if due (t0 + j) { interval := k, start := lastStart t0 k j }
      then ({ interval := k, start := t0 + j } : timeRecord)
      else { interval := k, start := lastStart t0 k j })
      = { interval := k, start := lastStart t0 k (j + 1) } := by
  rw [due_recordsAtTick t0 k j hk hkt hrange]
  by_cases h : (j : Int) % k = 0
  · simp [h, lastStart]
  · simp only [h, decide_False, Bool.false_eq_true, if_false]
    cases j with
    | zero => simp at h
    | succ j =>
      have hmod := emod_succ (j : Int) k hk
      push_cast at h
      simp only [lastStart]
      push_cast
      by_cases h2 : (j : Int) % k + 1 = k
      · rw [hmod, if_pos h2] at h
        exact absurd rfl h
      · rw [hmod, if_neg h2]
        congr 1
        omega

theorem dispatchPass_recordsAtTick (t0 : Int) (targets : List target) (j : Nat)
    (hint : ∀ t ∈ targets, 1 ≤ t.interval ∧ t.interval ≤ t0)
    (hrange : t0 + j < 2 ^ 63) :
    dispatchPass (t0 + j) (recordsAtTick t0 targets j)
      = (recordsAtTick t0 targets (j + 1), dueAtTick targets j) := by
  rw [dispatchPass_eq]
  apply Prod.ext
  · simp only [recordsAtTick, List.map_map]
    apply List.map_congr_left
    intro t ht
    exact lastStart_succ t0 t.interval j (hint t ht).1 (hint t ht).2 hrange
  · simp only [recordsAtTick, dueAtTick, List.enum_map, List.filter_map, List.map_map]
    have hfst : (Prod.fst ∘ Prod.map id
        (fun t : target => ({ interval := t.interval, start := lastStart t0 t.interval j } : timeRecord)))
        = (Prod.fst : Nat × target → Nat) := by
      funext p
      rfl
    rw [hfst]
    congr 1
    apply List.filter_congr
    intro p hp
    have ht := List.snd_mem_of_mem_enum hp
    exact due_recordsAtTick t0 p.2.interval j (hint p.2 ht).1 (hint p.2 ht).2 hrange

theorem tickClock_succ (t0 : Int) (j : Nat) : tickClock t0 (j + 1) = t0 + j := by
  simp [tickClock]

theorem tickClock_zero (t0 : Int) : tickClock t0 0 = t0 := by
  simp [tickClock]

theorem checkLoop_tickClock (t0 limit : Int) (targets : List target)
    (hint : ∀ t ∈ targets, 1 ≤ t.interval ∧ t.interval ≤ t0) (ht0 : 0 ≤ t0) (fuel : Nat) :
    ∀ (j : Nat) (run0 : CheckRun), run0.timeRecords = recordsAtTick t0 targets j →
      t0 + ((j + fuel : Nat) : Int) < 2 ^ 63 →
      (checkLoop (tickClock t0) limit t0 fuel (j + 1) run0).passes
        = run0.passes ++
          (List.range' j (if 0 < limit then min fuel (limit.toNat - j) else fuel)).map
            (fun (i : Nat) => (t0 + (i : Int), dueAtTick targets i)) := by
  induction fuel with
  | zero =>
    intro j run0 _ _
    simp [checkLoop]
  | succ fuel ih =>
    intro j run0 hrec hrange
    have hsub : sub64 (tickClock t0 (j + 1)) t0 = j := by
      rw [tickClock_succ, sub64_of_le _ _ ht0 (by omega) (by push_cast at hrange; omega)]
      omega
    unfold checkLoop
    simp only [hsub]
    by_cases hbreak : limit > 0 ∧ (j : Int) ≥ limit
    · simp only [hbreak, and_self, if_true]
      have hz : limit.toNat - j = 0 := by omega
      simp [hbreak.1, hz]
    · simp only [hbreak, if_false]
      have hpass := dispatchPass_recordsAtTick t0 targets j hint
        (by push_cast at hrange; omega)
      rw [tickClock_succ, hrec, hpass]
      rw [ih (j + 1) _ rfl (by push_cast at hrange ⊢; omega)]
      simp only [List.append_assoc, List.singleton_append]
      congr 1
      by_cases hl : 0 < limit
      · have hj : j < limit.toNat := by
          by_contra hge
          exact hbreak ⟨hl, by omega⟩
        have hm : min (fuel + 1) (limit.toNat - j) = min fuel (limit.toNat - (j + 1)) + 1 := by
          omega
        simp only [hl, if_true, hm, List.range'_succ, List.map_cons]
      · simp only [hl, if_false, List.range'_succ, List.map_cons]

/-- C6: under the simulated clock that reads `t0` at loop start and
`t0, t0 + 1, t0 + 2, ...` at the successive ticks, with `t0` a Unix time at
least as large as every interval, every interval at least one second, and the
sends on the channel never blocking, tick `j` of `check` has `nowTime = t0 + j`
and dispatches, in registry order, exactly the targets whose interval divides
`j`; the ticks made are `0, 1, ...` up to the time limit (or the fuel). -/
theorem check_dispatch_schedule (targets : List target) (outputPath : String)
    (t0 limit : Int) (fuel : Nat)
    (hint : ∀ t ∈ targets, 1 ≤ t.interval ∧ t.interval ≤ t0)
    (ht0 : 0 ≤ t0) (hrange : t0 + (fuel : Int) < 2 ^ 63) :
    (check (tickClock t0) targets outputPath limit fuel).passes
      = (List.range (if 0 < limit then min fuel limit.toNat else fuel)).map
          (fun (j : Nat) => (t0 + (j : Int), dueAtTick targets j)) := by
  unfold check
  rw [tickClock_zero]
  have hrec : (initTimeRecords targets) = recordsAtTick t0 targets 0 := by
    simp [initTimeRecords, recordsAtTick, lastStart]
  rw [checkLoop_tickClock t0 limit targets hint ht0 fuel 0 _ hrec (by simpa using hrange)]
  simp [List.range_eq_range']

theorem check_dispatch_schedule_witness :
    (check (tickClock 1000)
        [{ url := "http://one.test", statuses := [200], interval := 1 },
         { url := "http://five.test", statuses := [200], interval := 5 }] "" 10 11).passes
      = (List.range (if 0 < (10 : Int) then min 11 (10 : Int).toNat else 11)).map
          (fun (j : Nat) => ((1000 : Int) + (j : Int),
            dueAtTick [{ url := "http://one.test", statuses := [200], interval := 1 },
              { url := "http://five.test", statuses := [200], interval := 5 }] j)) :=
  check_dispatch_schedule
    [{ url := "http://one.test", statuses := [200], interval := 1 },
     { url := "http://five.test", statuses := [200], interval := 5 }] "" 1000 10 11
    (by decide) (by decide) (by decide)

/-- The ten-tick run of C6 written out: the one-second target (index 0) is
dispatched at each of the ten ticks, the five-second target (index 1) at ticks
0 and 5, after index 0 in both. -/
theorem check_ten_ticks :
    (check (tickClock 1000)
        [{ url := "http://one.test", statuses := [200], interval := 1 },
         { url := "http://five.test", statuses := [200], interval := 5 }] "" 10 11)
      = { gateCap := 200,
          timeRecords := [{ interval := 1, start := 1009 }, { interval := 5, start := 1005 }],
          passes := [(1000, [0, 1]), (1001, [0]), (1002, [0]), (1003, [0]), (1004, [0]),
            (1005, [0, 1]), (1006, [0]), (1007, [0]), (1008, [0]), (1009, [0])],
          returned := true } := by
  decide

/-! ## The channel bounds the running goroutines -/

theorem step_preserves_gate (timeString : Int → String) (targets : List target) (limit : Int)
    (s s' : Sys) (a : Action) (hstep : step timeString targets limit s a = some s')
    (hinv : s.held ≤ s.gate.length ∧ s.gate.length ≤ s.gateCap) :
    (s'.held ≤ s'.gate.length ∧ s'.gate.length ≤ s'.gateCap) ∧ s'.gateCap = s.gateCap := by
  obtain ⟨hheld, hcap⟩ := hinv
  cases a with
  | tick now =>
    simp only [step] at hstep
    split at hstep
    · rename_i hphase
      simp only [Sys.held, hphase] at hheld
      split at hstep <;>
        · simp only [Option.some.injEq] at hstep
          subst hstep
          simp only [Sys.held]
          exact ⟨⟨hheld, hcap⟩, trivial⟩
    · simp at hstep
  | visit =>
    simp only [step] at hstep
    split at hstep
    · rename_i i hphase
      simp only [Sys.held, hphase] at hheld
      split at hstep
      · simp only [Option.some.injEq] at hstep
        subst hstep
        simp only [Sys.held]
        exact ⟨⟨hheld, hcap⟩, trivial⟩
      · split at hstep
        · split at hstep
          · rename_i hroom
            simp only [Option.some.injEq] at hstep
            subst hstep
            simp only [Sys.held, List.length_append, List.length_singleton]
            exact ⟨⟨by omega, by omega⟩, trivial⟩
          · simp at hstep
        · simp only [Option.some.injEq] at hstep
          subst hstep
          simp only [Sys.held]
          exact ⟨⟨hheld, hcap⟩, trivial⟩
    · simp at hstep
  | spawn =>
    simp only [step] at hstep
    split at hstep
    · rename_i i hphase
      simp only [Sys.held, hphase] at hheld
      split at hstep
      · simp at hstep
      · simp only [Option.some.injEq] at hstep
        subst hstep
        simp only [Sys.held, List.length_append, List.length_singleton]
        exact ⟨⟨by omega, hcap⟩, trivial⟩
    · simp at hstep
  | respond k resp =>
    simp only [step] at hstep
    split at hstep
    · simp at hstep
    · rename_i hphase
      split at hstep
      · simp at hstep
      · rename_i task htask
        have hk : k < s.tasks.length := by
          rw [List.get?_eq_getElem?] at htask
          exact (List.getElem?_eq_some_iff.mp htask).1
        split at hstep
        · simp only [Option.some.injEq] at hstep
          subst hstep
          simp only [Sys.held] at hheld ⊢
          refine ⟨⟨?_, hcap⟩, trivial⟩
          split at hheld <;> omega
        · split at hstep
          · simp at hstep
          · split at hstep
            · simp at hstep
            · rename_i b rest hgate
              simp only [Option.some.injEq] at hstep
              subst hstep
              simp only [Sys.held, hgate, List.length_cons] at hheld hcap ⊢
              rw [List.length_eraseIdx]
              simp only [hk, if_true]
              refine ⟨⟨?_, by omega⟩, trivial⟩
              split at hheld <;> omega

theorem run_preserves_gate (timeString : Int → String) (targets : List target) (limit : Int)
    (actions : List Action) :
    ∀ (s s' : Sys), run timeString targets limit s actions = some s' →
      s.held ≤ s.gate.length ∧ s.gate.length ≤ s.gateCap →
      (s'.held ≤ s'.gate.length ∧ s'.gate.length ≤ s'.gateCap) ∧ s'.gateCap = s.gateCap := by
  induction actions with
  | nil =>
    intro s s' hrun hinv
    simp only [run, Option.some.injEq] at hrun
    subst hrun
    exact ⟨hinv, rfl⟩
  | cons a rest ih =>
    intro s s' hrun hinv
    simp only [run] at hrun
    split at hrun
    · simp at hrun
    · rename_i s1 hs1
      obtain ⟨hinv1, hcap1⟩ := step_preserves_gate timeString targets limit s s1 a hs1 hinv
      obtain ⟨hinv', hcap'⟩ := ih s1 s' hrun hinv1
      exact ⟨hinv', hcap'.trans hcap1⟩

/-- C8: in every state the program reaches from the start of the loop of
`check` by steps of the control thread (clock reading, test of an index with
the send on the channel, start of the goroutine) and of the goroutines (answer
of `http.Get` followed by the receive from the channel, or the fatal exit),
whatever the number of targets, the goroutines that hold a slot are no more
than the slots held, these no more than the values in the channel, and these
no more than its capacity, which is 200. -/
theorem inflight_le_capacity (timeString : Int → String) (targets : List target)
    (limit allStart : Int) (actions : List Action) (s : Sys)
    (hrun : run timeString targets limit (checkStart targets allStart) actions = some s) :
    s.tasks.length ≤ s.held ∧ s.held ≤ s.gate.length ∧ s.gate.length ≤ s.gateCap ∧
      s.gateCap = maxConnectionNum := by
  obtain ⟨⟨hheld, hcap⟩, hsame⟩ := run_preserves_gate timeString targets limit actions
    (checkStart targets allStart) s hrun (by simp [checkStart, Sys.held])
  exact ⟨by simp [Sys.held], hheld, hcap, hsame⟩

theorem inflight_le_capacity_witness :
    run (fun _ => "now") sampleTargets 0 (checkStart sampleTargets 1000) sampleActions
        = some { gateCap := 200, gate := [true, true],
                 timeRecords := [{ interval := 1, start := 1000 }, { interval := 5, start := 1000 }],
                 allStart := 1000, nowTime := 1001, phase := .spawning 0,
                 tasks := [{ i := 1, nowTime := 1000 }],
                 written := ["Warning: now http://one.test return status 404 but expected 200\n"] } ∧
      (1 ≤ 2 ∧ 2 ≤ 2 ∧ 2 ≤ 200 ∧ 200 = maxConnectionNum) :=
  ⟨by decide,
   inflight_le_capacity (fun _ => "now") sampleTargets 0 1000 sampleActions
     { gateCap := 200, gate := [true, true],
       timeRecords := [{ interval := 1, start := 1000 }, { interval := 5, start := 1000 }],
       allStart := 1000, nowTime := 1001, phase := .spawning 0,
       tasks := [{ i := 1, nowTime := 1000 }],
       written := ["Warning: now http://one.test return status 404 but expected 200\n"] }
     (by decide)⟩

/-- A send on a full channel blocks: when the index under test is due and the
channel holds as many values as its capacity, the control thread cannot take
its step. -/
theorem visit_blocks_on_full_gate (timeString : Int → String) (targets : List target)
    (limit : Int) (s : Sys) (i : Nat) (r : timeRecord) (hphase : s.phase = .ranging i)
    (hr : s.timeRecords.get? i = some r) (hdue : due s.nowTime r = true)
    (hfull : s.gate.length = s.gateCap) :
    step timeString targets limit s .visit = none := by
  simp only [step, hphase, hr, hdue, hfull]
  simp

/-- With 201 targets all due at the first tick, the first 200 are dispatched
and fill the channel; the send for the last one then blocks. -/
theorem saturation_reached :
    (run (fun _ => "now") (List.replicate 201 sampleTarget) 0
          (checkStart (List.replicate 201 sampleTarget) 1000)
          (Action.tick 1000 :: (List.replicate 200 [Action.visit, Action.spawn]).flatten)).map
        (fun s => (s.tasks.length, s.gate.length, s.gateCap, s.phase,
          step (fun _ => "now") (List.replicate 201 sampleTarget) 0 s .visit))
      = some (200, 200, 200, .ranging 200, none) := by
  decide!

/-! ## A dispatch pass, step by step -/

theorem run_passActions (timeString : Int → String) (targets : List target) (limit : Int)
    (now allStart : Int) (cap : Nat) (written : List String) (suf : List timeRecord) :
    ∀ (pre : List timeRecord) (gate : List Bool) (tasks : List Task),
      gate.length + (suf.filter (due now)).length ≤ cap →
      run timeString targets limit
          { gateCap := cap, gate := gate, timeRecords := pre ++ suf, allStart := allStart,
            nowTime := now, phase := .ranging pre.length, tasks := tasks, written := written }
          (passActions now suf)
        = some
          { gateCap := cap,
            gate := gate ++ List.replicate (suf.filter (due now)).length true,
            timeRecords := pre ++ suf.map
              (fun r => if due now r then { r with start := now } else r),
            allStart := allStart, nowTime := now, phase := .head,
            tasks := tasks ++
              (((suf.enumFrom pre.length).filter (fun p => due now p.2)).map Prod.fst).map
                (fun i => { i := i, nowTime := now }),
            written := written } := by
  induction suf with
  | nil =>
    intro pre gate tasks _
    simp [passActions, run, step]
  | cons r suf ih =>
    intro pre gate tasks hroom
    have hget : (pre ++ r :: suf).get? pre.length = some r := by
      rw [List.get?_eq_getElem?, List.getElem?_append_right (le_refl _)]
      simp
    by_cases hd : due now r = true
    · have hroom' : (gate ++ [true]).length + (suf.filter (due now)).length ≤ cap := by
        simp only [List.filter_cons, hd, if_true, List.length_cons] at hroom
        simp only [List.length_append, List.length_singleton]
        omega
      have hroom1 : gate.length < cap := by
        simp only [List.length_append, List.length_singleton] at hroom'
        omega
      have hset : (pre ++ r :: suf).set pre.length { r with start := now }
          = (pre ++ [({ r with start := now } : timeRecord)]) ++ suf := by
        simp
      have hlen : pre.length + 1 = (pre ++ [({ r with start := now } : timeRecord)]).length := by
        simp
      have h := ih (pre ++ [({ r with start := now } : timeRecord)]) (gate ++ [true])
        (tasks ++ [({ i := pre.length, nowTime := now } : Task)]) hroom'
      simp only [passActions, hd, if_true, List.cons_append, List.nil_append, run, step, hget,
        hroom1, hset]
      rw [hlen, h]
      simp [List.filter_cons, hd, List.enumFrom_cons, List.replicate_succ]
    · have hroom' : gate.length + (suf.filter (due now)).length ≤ cap := by
        simpa only [List.filter_cons, hd, if_false] using hroom
      have hre : pre ++ r :: suf = (pre ++ [r]) ++ suf := by simp
      have hlen : pre.length + 1 = (pre ++ [r]).length := by simp
      have h := ih (pre ++ [r]) gate tasks hroom'
      have hdf : due now r = false := by
        cases hb : due now r with
        | false => rfl
        | true => exact absurd hb hd
      simp only [passActions, hdf, Bool.false_eq_true, if_false, List.cons_append,
        List.nil_append, run, step, hget]
      rw [hlen, hre, h]
      simp [List.filter_cons, hdf, List.enumFrom_cons]

theorem length_filter_enumFrom (q : timeRecord → Bool) (l : List timeRecord) :
    ∀ n, ((l.enumFrom n).filter (fun p => q p.2)).length = (l.filter q).length := by
  induction l with
  | nil => intro n; rfl
  | cons r l ih =>
    intro n
    simp only [List.enumFrom_cons, List.filter_cons]
    by_cases hq : q r = true
    · simp [hq, ih]
    · simp [hq, ih]

/-- The step-by-step program and the loop of `check` agree on a tick: from
the head of the range loop, when the channel has room for every due target,
the steps of the control thread lead to the records and the dispatches, in the
same order, that `dispatchPass` computes, one slot taken and one goroutine
started per dispatch. -/
theorem run_pass_eq_dispatchPass (timeString : Int → String) (targets : List target)
    (limit now allStart : Int) (cap : Nat) (gate : List Bool) (tasks : List Task)
    (written : List String) (timeRecords : List timeRecord)
    (hroom : gate.length + (dispatchPass now timeRecords).2.length ≤ cap) :
    run timeString targets limit
        { gateCap := cap, gate := gate, timeRecords := timeRecords, allStart := allStart,
          nowTime := now, phase := .ranging 0, tasks := tasks, written := written }
        (passActions now timeRecords)
      = some
        { gateCap := cap,
          gate := gate ++ List.replicate (dispatchPass now timeRecords).2.length true,
          timeRecords := (dispatchPass now timeRecords).1,
          allStart := allStart, nowTime := now, phase := .head,
          tasks := tasks ++ (dispatchPass now timeRecords).2.map
            (fun i => { i := i, nowTime := now }),
          written := written } := by
  have hcount : (dispatchPass now timeRecords).2.length
      = (timeRecords.filter (due now)).length := by
    rw [dispatchPass_eq]
    simp only [List.length_map, List.enum]
    exact length_filter_enumFrom (due now) timeRecords 0
  rw [hcount] at hroom ⊢
  have h := run_passActions timeString targets limit now allStart cap written timeRecords []
    gate tasks hroom
  simp only [List.nil_append, List.length_nil] at h
  rw [h, dispatchPass_eq]
  rfl

/-! ## The time limit in the step-by-step program -/

theorem step_allStart (timeString : Int → String) (targets : List target) (limit : Int)
    (s s' : Sys) (a : Action) (h : step timeString targets limit s a = some s') :
    s'.allStart = s.allStart := by
  cases a with
  | tick now =>
    simp only [step] at h
    split at h
    · split at h <;> (simp only [Option.some.injEq] at h; subst h; rfl)
    · simp at h
  | visit =>
    simp only [step] at h
    split at h
    · split at h
      · simp only [Option.some.injEq] at h; subst h; rfl
      · split at h
        · split at h
          · simp only [Option.some.injEq] at h; subst h; rfl
          · simp at h
        · simp only [Option.some.injEq] at h; subst h; rfl
    · simp at h
  | spawn =>
    simp only [step] at h
    split at h
    · split at h
      · simp at h
      · simp only [Option.some.injEq] at h; subst h; rfl
    · simp at h
  | respond k resp =>
    simp only [step] at h
    split at h
    · simp at h
    · split at h
      · simp at h
      · split at h
        · simp only [Option.some.injEq] at h; subst h; rfl
        · split at h
          · simp at h
          · split at h
            · simp at h
            · simp only [Option.some.injEq] at h; subst h; rfl

theorem step_of_returned (timeString : Int → String) (targets : List target) (limit : Int)
    (s : Sys) (a : Action) (h : s.phase = .returned) :
    step timeString targets limit s a = none := by
  cases a <;> simp [step, h]

theorem step_of_exited (timeString : Int → String) (targets : List target) (limit : Int)
    (s : Sys) (a : Action) (h : s.phase = .exited) :
    step timeString targets limit s a = none := by
  cases a <;> simp [step, h]

theorem run_of_returned (timeString : Int → String) (targets : List target) (limit : Int)
    (s s' : Sys) (actions : List Action) (h : s.phase = .returned)
    (hrun : run timeString targets limit s actions = some s') : actions = [] := by
  cases actions with
  | nil => rfl
  | cons a rest => simp [run, step_of_returned timeString targets limit s a h] at hrun

theorem run_of_exited (timeString : Int → String) (targets : List target) (limit : Int)
    (s s' : Sys) (actions : List Action) (h : s.phase = .exited)
    (hrun : run timeString targets limit s actions = some s') : actions = [] := by
  cases actions with
  | nil => rfl
  | cons a rest => simp [run, step_of_exited timeString targets limit s a h] at hrun

theorem step_tick (timeString : Int → String) (targets : List target) (limit : Int)
    (s s' : Sys) (now : Int) (h : step timeString targets limit s (.tick now) = some s') :
    s.phase = .head ∧
      (s'.phase = .returned ↔ (limit > 0 ∧ sub64 now s.allStart ≥ limit)) ∧
      s'.phase ≠ .exited := by
  simp only [step] at h
  split at h
  · rename_i hphase
    refine ⟨hphase, ?_⟩
    split at h
    · rename_i hc
      simp only [Option.some.injEq] at h
      subst h
      simp [hc]
    · rename_i hc
      simp only [Option.some.injEq] at h
      subst h
      simp [hc]
  · simp at h

theorem step_not_tick_phase (timeString : Int → String) (targets : List target) (limit : Int)
    (s s' : Sys) (a : Action) (hnt : ∀ now, a ≠ .tick now)
    (h : step timeString targets limit s a = some s') :
    s'.phase ≠ .returned := by
  cases a with
  | tick now => exact absurd rfl (hnt now)
  | visit =>
    simp only [step] at h
    split at h
    · split at h
      · simp only [Option.some.injEq] at h; subst h; simp
      · split at h
        · split at h
          · simp only [Option.some.injEq] at h; subst h; simp
          · simp at h
        · simp only [Option.some.injEq] at h; subst h; simp
    · simp at h
  | spawn =>
    simp only [step] at h
    split at h
    · split at h
      · simp at h
      · simp only [Option.some.injEq] at h; subst h; simp
    · simp at h
  | respond k resp =>
    simp only [step] at h
    split at h
    · simp at h
    · rename_i hphase
      split at h
      · simp at h
      · split at h
        · simp only [Option.some.injEq] at h; subst h; simp
        · split at h
          · simp at h
          · split at h
            · simp at h
            · simp only [Option.some.injEq] at h
              subst h
              intro hr
              exact hphase (Or.inl hr)

theorem tickReadings_cons_not_tick (a : Action) (rest : List Action)
    (hnt : ∀ now, a ≠ .tick now) : tickReadings (a :: rest) = tickReadings rest := by
  cases a with
  | tick now => exact absurd rfl (hnt now)
  | visit => rfl
  | spawn => rfl
  | respond k resp => rfl

theorem run_ticks (timeString : Int → String) (targets : List target) (limit : Int)
    (actions : List Action) :
    ∀ (s0 s : Sys), run timeString targets limit s0 actions = some s →
      s0.phase ≠ .returned →
      (∀ now ∈ (tickReadings actions).dropLast,
        ¬ (limit > 0 ∧ sub64 now s0.allStart ≥ limit)) ∧
      (s.phase = .returned ↔
        ∃ now, (tickReadings actions).getLast? = some now ∧
          (limit > 0 ∧ sub64 now s0.allStart ≥ limit)) := by
  induction actions with
  | nil =>
    intro s0 s hrun h0
    simp only [run, Option.some.injEq] at hrun
    subst hrun
    simp [tickReadings, h0]
  | cons a rest ih =>
    intro s0 s hrun h0
    simp only [run] at hrun
    split at hrun
    · simp at hrun
    · rename_i s1 hs1
      have hall := step_allStart timeString targets limit s0 s1 a hs1
      by_cases htick : ∃ now, a = .tick now
      · obtain ⟨now, rfl⟩ := htick
        obtain ⟨-, hret, -⟩ := step_tick timeString targets limit s0 s1 now hs1
        by_cases hT : limit > 0 ∧ sub64 now s0.allStart ≥ limit
        · have hs1r : s1.phase = .returned := hret.mpr hT
          have hrest := run_of_returned timeString targets limit s1 s rest hs1r hrun
          subst hrest
          simp only [run, Option.some.injEq] at hrun
          subst hrun
          simp [tickReadings, hs1r, hT]
        · have hs1r : s1.phase ≠ .returned := fun h => hT (hret.mp h)
          obtain ⟨ih1, ih2⟩ := ih s1 s hrun hs1r
          rw [hall] at ih1 ih2
          simp only [tickReadings]
          constructor
          · intro x hx
            cases hrs : tickReadings rest with
            | nil => simp [hrs] at hx
            | cons r rs =>
              rw [hrs, List.dropLast_cons₂] at hx
              rcases List.mem_cons.mp hx with rfl | hx'
              · exact hT
              · exact ih1 x (by rw [hrs]; exact hx')
          · cases hrs : tickReadings rest with
            | nil =>
              rw [hrs] at ih2
              simp only [List.getLast?_nil, false_and, exists_false, iff_false] at ih2
              simp [ih2, hT]
            | cons r rs =>
              rw [List.getLast?_cons_cons, ← hrs]
              exact ih2
      · have hnt : ∀ now, a ≠ .tick now := fun now h => htick ⟨now, h⟩
        have hs1r := step_not_tick_phase timeString targets limit s0 s1 a hnt hs1
        obtain ⟨ih1, ih2⟩ := ih s1 s hrun hs1r
        rw [hall] at ih1 ih2
        rw [tickReadings_cons_not_tick a rest hnt]
        exact ⟨ih1, ih2⟩

theorem step_respond_error (timeString : Int → String) (targets : List target) (limit : Int)
    (s s' : Sys) (k : Nat) (msg : String)
    (h : step timeString targets limit s (.respond k (.error msg)) = some s') :
    s'.phase = .exited := by
  simp only [step] at h
  split at h
  · simp at h
  · split at h
    · simp at h
    · simp only [Option.some.injEq] at h
      subst h
      rfl

theorem step_phase_not_exited (timeString : Int → String) (targets : List target)
    (limit : Int) (s s' : Sys) (a : Action) (hne : ∀ k msg, a ≠ .respond k (.error msg))
    (h : step timeString targets limit s a = some s') : s'.phase ≠ .exited := by
  cases a with
  | tick now => exact (step_tick timeString targets limit s s' now h).2.2
  | visit =>
    simp only [step] at h
    split at h
    · split at h
      · simp only [Option.some.injEq] at h; subst h; simp
      · split at h
        · split at h
          · simp only [Option.some.injEq] at h; subst h; simp
          · simp at h
        · simp only [Option.some.injEq] at h; subst h; simp
    · simp at h
  | spawn =>
    simp only [step] at h
    split at h
    · split at h
      · simp at h
      · simp only [Option.some.injEq] at h; subst h; simp
    · simp at h
  | respond k resp =>
    cases resp with
    | error msg => exact absurd rfl (hne k msg)
    | ok statusCode =>
      simp only [step] at h
      split at h
      · simp at h
      · rename_i hphase
        split at h
        · simp at h
        · split at h
          · simp at h
          · split at h
            · simp at h
            · simp only [Option.some.injEq] at h
              subst h
              intro hr
              exact hphase (Or.inr hr)

theorem run_requestFails (timeString : Int → String) (targets : List target) (limit : Int)
    (actions : List Action) :
    ∀ (s0 s : Sys), run timeString targets limit s0 actions = some s →
      (requestFails actions = true → s.phase = .exited) ∧
      (s0.phase ≠ .exited → requestFails actions = false → s.phase ≠ .exited) := by
  induction actions with
  | nil =>
    intro s0 s hrun
    simp only [run, Option.some.injEq] at hrun
    subst hrun
    simp [requestFails]
  | cons a rest ih =>
    intro s0 s hrun
    simp only [run] at hrun
    split at hrun
    · simp at hrun
    · rename_i s1 hs1
      by_cases herr : ∃ k msg, a = .respond k (.error msg)
      · obtain ⟨k, msg, rfl⟩ := herr
        have hex := step_respond_error timeString targets limit s0 s1 k msg hs1
        have hrest := run_of_exited timeString targets limit s1 s rest hex hrun
        subst hrest
        simp only [run, Option.some.injEq] at hrun
        subst hrun
        simp [requestFails, hex]
      · have hne : ∀ k msg, a ≠ .respond k (.error msg) := fun k msg h => herr ⟨k, msg, h⟩
        have hs1 := step_phase_not_exited timeString targets limit s0 s1 a hne hs1
        have hreq : requestFails (a :: rest) = requestFails rest := by
          cases a with
          | tick now => rfl
          | visit => rfl
          | spawn => rfl
          | respond k resp =>
            cases resp with
            | error msg => exact absurd rfl (hne k msg)
            | ok c => rfl
        obtain ⟨ih1, ih2⟩ := ih s1 s hrun
        rw [hreq]
        exact ⟨ih1, fun _ h => ih2 hs1 h⟩

theorem sub64_clock (clock : Nat → Int) (limit : Int) (hfirst : clock 0 ≤ clock 1)
    (hstep : ∀ n, 1 ≤ n → clock n + 1 ≤ clock (n + 1))
    (hrange : ∀ n, n ≤ limit.toNat + 1 → clock n - clock 0 < 2 ^ 63)
    (j : Nat) (hj : j ≤ limit.toNat) :
    sub64 (clock (j + 1)) (clock 0) = clock (j + 1) - clock 0 ∧
      (j : Int) ≤ clock (j + 1) - clock 0 := by
  have hlow := clock_lower_bound clock hfirst hstep j
  have hup := hrange (j + 1) (by omega)
  refine ⟨?_, by omega⟩
  unfold sub64
  exact wrap64_of_inInt64 _ ⟨by omega, hup⟩

theorem run_limit_facts (timeString : Int → String) (targets : List target)
    (clock : Nat → Int) (limit : Int) (hL : 0 < limit) (hfirst : clock 0 ≤ clock 1)
    (hstep : ∀ n, 1 ≤ n → clock n + 1 ≤ clock (n + 1))
    (hrange : ∀ n, n ≤ limit.toNat + 1 → clock n - clock 0 < 2 ^ 63)
    (actions : List Action) (s : Sys)
    (hrun : run timeString targets limit (checkStart targets (clock 0)) actions = some s)
    (hclock : readsClock clock actions) :
    (tickReadings actions).length ≤ limit.toNat + 1 ∧
      (passesMade limit (clock 0) actions : Int) ≤ limit ∧
      (s.phase = .returned ↔
        ∃ now, (tickReadings actions).getLast? = some now ∧ limit ≤ now - clock 0) ∧
      ((tickReadings actions).length = limit.toNat + 1 → s.phase = .returned) := by
  obtain ⟨hR1, hR2⟩ := run_ticks timeString targets limit actions
    (checkStart targets (clock 0)) s hrun (by simp [checkStart])
  have hA : (checkStart targets (clock 0)).allStart = clock 0 := rfl
  rw [hA] at hR1 hR2
  unfold passesMade
  unfold readsClock at hclock
  generalize hm : (tickReadings actions).length = m at hclock
  generalize tickReadings actions = rs at hR1 hR2 hclock hm
  have hLn : (limit.toNat : Int) = limit := Int.toNat_of_nonneg (le_of_lt hL)
  cases m with
  | zero =>
    simp only [List.range_zero, List.map_nil] at hclock
    subst hclock
    simp only [List.getLast?_nil, false_and, exists_false, iff_false] at hR2
    refine ⟨by omega, by simp; omega, by simp [hR2], by omega⟩
  | succ k =>
    rw [List.range_succ, List.map_append, List.map_singleton] at hclock
    subst hclock
    rw [List.dropLast_concat] at hR1
    rw [List.getLast?_concat] at hR2
    have hk : k ≤ limit.toNat := by
      by_contra hgt
      have hmem : clock (limit.toNat + 1)
          ∈ List.map (fun j => clock (j + 1)) (List.range k) :=
        List.mem_map.mpr ⟨limit.toNat, List.mem_range.mpr (by omega), rfl⟩
      obtain ⟨hs, hlo⟩ := sub64_clock clock limit hfirst hstep hrange limit.toNat (le_refl _)
      exact hR1 _ hmem ⟨hL, by rw [hs]; omega⟩
    obtain ⟨hs, hlo⟩ := sub64_clock clock limit hfirst hstep hrange k hk
    have hT : (limit > 0 ∧ sub64 (clock (k + 1)) (clock 0) ≥ limit)
        ↔ limit ≤ clock (k + 1) - clock 0 := by
      rw [hs]
      exact ⟨fun h => h.2, fun h => ⟨hL, h⟩⟩
    have hret : s.phase = .returned ↔ limit ≤ clock (k + 1) - clock 0 := by
      rw [hR2]
      constructor
      · rintro ⟨now, hnow, hT'⟩
        simp only [Option.some.injEq] at hnow
        subst hnow
        exact hT.mp hT'
      · intro h
        exact ⟨_, rfl, hT.mpr h⟩
    refine ⟨by omega, ?_, ?_, ?_⟩
    · rw [List.filter_append, List.length_append]
      have hpre : (List.filter
          (fun now => !decide (limit > 0 ∧ sub64 now (clock 0) ≥ limit))
          (List.map (fun j => clock (j + 1)) (List.range k))).length ≤ k := by
        refine le_trans (List.length_filter_le _ _) ?_
        simp
      by_cases hlast : limit ≤ clock (k + 1) - clock 0
      · have : (List.filter (fun now => !decide (limit > 0 ∧ sub64 now (clock 0) ≥ limit))
            [clock (k + 1)]).length = 0 := by
          simp [List.filter_cons, hT.mpr hlast]
        omega
      · have hklt : k < limit.toNat := by omega
        have : (List.filter (fun now => !decide (limit > 0 ∧ sub64 now (clock 0) ≥ limit))
            [clock (k + 1)]).length ≤ 1 :=
          le_trans (List.length_filter_le _ _) (by simp)
        omega
    · rw [hret, List.getLast?_concat]
      constructor
      · intro h
        exact ⟨_, rfl, h⟩
      · rintro ⟨now, hnow, h⟩
        simp only [Option.some.injEq] at hnow
        subst hnow
        exact h
    · intro hlen
      have hkeq : k = limit.toNat := by omega
      rw [hret]
      omega

theorem run_append (timeString : Int → String) (targets : List target) (limit : Int)
    (as bs : List Action) :
    ∀ (s s1 : Sys), run timeString targets limit s as = some s1 →
      run timeString targets limit s (as ++ bs) = run timeString targets limit s1 bs := by
  induction as with
  | nil =>
    intro s s1 h
    simp only [run, Option.some.injEq] at h
    subst h
    rfl
  | cons a rest ih =>
    intro s s1 h
    cases hs : step timeString targets limit s a with
    | none => simp [run, hs] at h
    | some s' =>
      simp only [run, List.cons_append, hs] at h ⊢
      exact ih s' s1 h

theorem run_answeredPass (timeString : Int → String) (targets : List target) (limit : Int)
    (now allStart statusCode : Int) (cap : Nat) (hcap : 0 < cap) (suf : List timeRecord) :
    ∀ (pre : List timeRecord) (written : List String),
      (pre ++ suf).length ≤ targets.length →
      ∃ written',
        run timeString targets limit
            { gateCap := cap, gate := [], timeRecords := pre ++ suf, allStart := allStart,
              nowTime := now, phase := .ranging pre.length, tasks := [], written := written }
            (answeredPass now statusCode suf)
          = some
            { gateCap := cap, gate := [],
              timeRecords := pre ++ suf.map
                (fun r => if due now r then { r with start := now } else r),
              allStart := allStart, nowTime := now, phase := .head, tasks := [],
              written := written' } := by
  induction suf with
  | nil =>
    intro pre written _
    exact ⟨written, by simp [answeredPass, run, step]⟩
  | cons r suf ih =>
    intro pre written hlen
    have hget : (pre ++ r :: suf).get? pre.length = some r := by
      rw [List.get?_eq_getElem?, List.getElem?_append_right (le_refl _)]
      simp
    by_cases hd : due now r = true
    · have hlt : pre.length < targets.length := by
        simp only [List.length_append, List.length_cons] at hlen
        omega
      obtain ⟨t, ht⟩ : ∃ t, targets.get? pre.length = some t := by
        rw [List.get?_eq_getElem?]
        exact ⟨targets[pre.length], List.getElem?_eq_getElem hlt⟩
      have hset : (pre ++ r :: suf).set pre.length { r with start := now }
          = (pre ++ [({ r with start := now } : timeRecord)]) ++ suf := by
        simp
      have hlen1 : pre.length + 1
          = (pre ++ [({ r with start := now } : timeRecord)]).length := by
        simp
      obtain ⟨written', h⟩ := ih (pre ++ [({ r with start := now } : timeRecord)])
        (written ++ checkerTask timeString t now statusCode) (by simpa using hlen)
      refine ⟨written', ?_⟩
      simp only [answeredPass, hd, if_true, List.cons_append, List.nil_append, run, step, hget,
        List.length_nil, hcap, reduceCtorEq, or_self, if_false, List.get?_cons_zero, ht,
        List.eraseIdx_cons_zero, hset]
      rw [hlen1, h]
      simp [hd]
    · have hdf : due now r = false := by
        cases hb : due now r with
        | false => rfl
        | true => exact absurd hb hd
      have hre : pre ++ r :: suf = (pre ++ [r]) ++ suf := by simp
      have hlen1 : pre.length + 1 = (pre ++ [r]).length := by simp
      obtain ⟨written', h⟩ := ih (pre ++ [r]) written (by simpa using hlen)
      refine ⟨written', ?_⟩
      simp only [answeredPass, hdf, Bool.false_eq_true, if_false, List.cons_append,
        List.nil_append, run, step, hget]
      rw [hlen1, hre, h]
      simp [hdf]

theorem tickReadings_append (as bs : List Action) :
    tickReadings (as ++ bs) = tickReadings as ++ tickReadings bs := by
  induction as with
  | nil => rfl
  | cons a rest ih =>
    cases a with
    | tick now => simp [tickReadings, ih]
    | visit => simpa [tickReadings] using ih
    | spawn => simpa [tickReadings] using ih
    | respond k resp => simpa [tickReadings] using ih

theorem requestFails_append (as bs : List Action) :
    requestFails (as ++ bs) = (requestFails as || requestFails bs) := by
  induction as with
  | nil => rfl
  | cons a rest ih =>
    cases a with
    | tick now => simpa [requestFails] using ih
    | visit => simpa [requestFails] using ih
    | spawn => simpa [requestFails] using ih
    | respond k resp =>
      cases resp with
      | error msg => simp [requestFails]
      | ok c => simpa [requestFails] using ih

theorem answeredPass_quiet (now statusCode : Int) (timeRecords : List timeRecord) :
    tickReadings (answeredPass now statusCode timeRecords) = [] ∧
      requestFails (answeredPass now statusCode timeRecords) = false := by
  induction timeRecords with
  | nil => simp [answeredPass, tickReadings, requestFails]
  | cons r rest ih =>
    by_cases hd : due now r = true
    · simp [answeredPass, hd, tickReadings, requestFails, ih.1, ih.2]
    · simp [answeredPass, hd, tickReadings, requestFails, ih.1, ih.2]

theorem answeredLoop_readings (clock : Nat → Int) (limit allStart statusCode : Int)
    (fuel : Nat) :
    ∀ (reads : Nat) (timeRecords : List timeRecord),
      (∃ k, tickReadings (answeredLoop clock limit allStart statusCode fuel reads timeRecords)
          = (List.range' reads k).map clock) ∧
        requestFails (answeredLoop clock limit allStart statusCode fuel reads timeRecords)
          = false := by
  induction fuel with
  | zero =>
    intro reads timeRecords
    exact ⟨⟨0, rfl⟩, rfl⟩
  | succ fuel ih =>
    intro reads timeRecords
    unfold answeredLoop
    simp only
    split
    · exact ⟨⟨1, rfl⟩, rfl⟩
    · obtain ⟨⟨k, hk⟩, hreq⟩ := ih (reads + 1) (dispatchPass (clock reads) timeRecords).1
      obtain ⟨hq1, hq2⟩ := answeredPass_quiet (clock reads) statusCode timeRecords
      refine ⟨⟨k + 1, ?_⟩, ?_⟩
      · simp only [tickReadings, tickReadings_append, hq1, hk, List.nil_append,
          List.range'_succ, List.map_cons]
      · simp only [requestFails, requestFails_append, hq2, hreq, Bool.or_self]

theorem answeredRun_readsClock (clock : Nat → Int) (targets : List target)
    (limit statusCode : Int) (fuel : Nat) :
    readsClock clock (answeredRun clock targets limit statusCode fuel) ∧
      requestFails (answeredRun clock targets limit statusCode fuel) = false := by
  obtain ⟨⟨k, hk⟩, hreq⟩ := answeredLoop_readings clock limit (clock 0) statusCode fuel 1
    (initTimeRecords targets)
  refine ⟨?_, hreq⟩
  unfold readsClock answeredRun
  rw [hk]
  simp only [List.length_map, List.length_range', List.range'_eq_map_range, List.map_map,
    List.length_range]
  apply List.map_congr_left
  intro j _
  simp [Function.comp, Nat.add_comm]

theorem run_answeredLoop (timeString : Int → String) (targets : List target)
    (clock : Nat → Int) (limit statusCode : Int) (hL : 0 < limit) (hfirst : clock 0 ≤ clock 1)
    (hstep : ∀ n, 1 ≤ n → clock n + 1 ≤ clock (n + 1))
    (hrange : ∀ n, n ≤ limit.toNat + 1 → clock n - clock 0 < 2 ^ 63) (fuel : Nat) :
    ∀ (j : Nat) (timeRecords : List timeRecord) (nowTime : Int) (written : List String),
      timeRecords.length ≤ targets.length → j ≤ limit.toNat → limit.toNat + 1 ≤ j + fuel →
      ∃ s,
        run timeString targets limit
            { gateCap := maxConnectionNum, gate := [], timeRecords := timeRecords,
              allStart := clock 0, nowTime := nowTime, phase := .head, tasks := [],
              written := written }
            (answeredLoop clock limit (clock 0) statusCode fuel (j + 1) timeRecords) = some s ∧
          s.phase = .returned := by
  induction fuel with
  | zero => intro j _ _ _ _ hj hfuel; omega
  | succ fuel ih =>
    intro j timeRecords nowTime written hlen hj hfuel
    obtain ⟨hsub, hlow⟩ := sub64_clock clock limit hfirst hstep hrange j hj
    unfold answeredLoop
    simp only [hsub]
    by_cases hbreak : limit ≤ clock (j + 1) - clock 0
    · have hc : limit > 0 ∧ clock (j + 1) - clock 0 ≥ limit := ⟨hL, hbreak⟩
      simp only [hc, and_self, if_true, run, step, hsub]
      exact ⟨_, rfl, rfl⟩
    · have hc : ¬ (limit > 0 ∧ clock (j + 1) - clock 0 ≥ limit) := fun h => hbreak h.2
      simp only [hc, if_false]
      have hjlt : j < limit.toNat := by omega
      obtain ⟨written', hpass⟩ := run_answeredPass timeString targets limit (clock (j + 1))
        (clock 0) statusCode maxConnectionNum (by decide) timeRecords [] written
        (by simpa using hlen)
      simp only [List.nil_append, List.length_nil] at hpass
      have hlen' : (dispatchPass (clock (j + 1)) timeRecords).1.length ≤ targets.length := by
        rw [dispatchPass_eq]
        simpa using hlen
      have hdp : (dispatchPass (clock (j + 1)) timeRecords).1
          = timeRecords.map
            (fun r => if due (clock (j + 1)) r then { r with start := clock (j + 1) } else r) := by
        rw [dispatchPass_eq]
      obtain ⟨s, hs, hret⟩ := ih (j + 1) (dispatchPass (clock (j + 1)) timeRecords).1
        (clock (j + 1)) written' hlen' (by omega) (by omega)
      refine ⟨s, ?_, hret⟩
      simp only [run, step, hsub, hc, if_false]
      rw [run_append timeString targets limit _ _ _ _ hpass]
      rw [hdp] at hs ⊢
      exact hs

/-- C7 (as amended): with a time limit `limit > 0` and a clock that does not
go back between the reading of `allStart` and the first tick, advances by at
least one second from each tick to the next and keeps `now - allStart` below
`2 ^ 63`, in every execution of the program (any interleaving of the control
thread and the goroutines) at most `limit` dispatch passes are begun and at
most `limit + 1` ticks are made; `check` has returned exactly when the last
tick found `now - allStart >= limit`, which the tick number `limit + 1` always
does; an execution in which a request fails has ended in the fatal exit, one
without a failed request has not. When every goroutine is answered with a
status code before the next send, the execution followed for `limit + 1` ticks
or more exists and reaches the return of `check`. -/
theorem time_limit_bounds_passes (timeString : Int → String) (targets : List target)
    (clock : Nat → Int) (limit statusCode : Int) (hL : 0 < limit)
    (hfirst : clock 0 ≤ clock 1)
    (hstep : ∀ n, 1 ≤ n → clock n + 1 ≤ clock (n + 1))
    (hrange : ∀ n, n ≤ limit.toNat + 1 → clock n - clock 0 < 2 ^ 63) :
    (∀ actions s,
        run timeString targets limit (checkStart targets (clock 0)) actions = some s →
        readsClock clock actions →
        (passesMade limit (clock 0) actions : Int) ≤ limit ∧
        (tickReadings actions).length ≤ limit.toNat + 1 ∧
        (s.phase = .returned ↔
          ∃ now, (tickReadings actions).getLast? = some now ∧ limit ≤ now - clock 0) ∧
        ((tickReadings actions).length = limit.toNat + 1 → s.phase = .returned) ∧
        (requestFails actions = true → s.phase = .exited) ∧
        (requestFails actions = false → s.phase ≠ .exited)) ∧
      (∀ fuel, limit.toNat + 1 ≤ fuel →
        ∃ s,
          run timeString targets limit (checkStart targets (clock 0))
              (answeredRun clock targets limit statusCode fuel) = some s ∧
          s.phase = .returned ∧
          readsClock clock (answeredRun clock targets limit statusCode fuel) ∧
          requestFails (answeredRun clock targets limit statusCode fuel) = false ∧
          (passesMade limit (clock 0) (answeredRun clock targets limit statusCode fuel) : Int)
            ≤ limit) := by
  constructor
  · intro actions s hrun hclock
    obtain ⟨h1, h2, h3, h4⟩ := run_limit_facts timeString targets clock limit hL hfirst hstep
      hrange actions s hrun hclock
    obtain ⟨h5, h6⟩ := run_requestFails timeString targets limit actions
      (checkStart targets (clock 0)) s hrun
    exact ⟨h2, h1, h3, h4, h5, h6 (by simp [checkStart])⟩
  · intro fuel hfuel
    obtain ⟨s, hs, hret⟩ := run_answeredLoop timeString targets clock limit statusCode hL
      hfirst hstep hrange fuel 0 (initTimeRecords targets) 0 []
      (by simp [initTimeRecords]) (by omega) (by omega)
    obtain ⟨hclock, hreq⟩ := answeredRun_readsClock clock targets limit statusCode fuel
    have hs' : run timeString targets limit (checkStart targets (clock 0))
        (answeredRun clock targets limit statusCode fuel) = some s := hs
    exact ⟨s, hs', hret, hclock, hreq,
      (run_limit_facts timeString targets clock limit hL hfirst hstep hrange _ s hs' hclock).2.1⟩

theorem time_limit_bounds_passes_witness :
    (∀ actions s,
        run (fun _ => "now") sampleTargets 3 (checkStart sampleTargets (tickClock 1000 0))
          actions = some s →
        readsClock (tickClock 1000) actions →
        (passesMade 3 (tickClock 1000 0) actions : Int) ≤ 3 ∧
        (tickReadings actions).length ≤ (3 : Int).toNat + 1 ∧
        (s.phase = .returned ↔
          ∃ now, (tickReadings actions).getLast? = some now ∧ 3 ≤ now - tickClock 1000 0) ∧
        ((tickReadings actions).length = (3 : Int).toNat + 1 → s.phase = .returned) ∧
        (requestFails actions = true → s.phase = .exited) ∧
        (requestFails actions = false → s.phase ≠ .exited)) ∧
      (∀ fuel, (3 : Int).toNat + 1 ≤ fuel →
        ∃ s,
          run (fun _ => "now") sampleTargets 3 (checkStart sampleTargets (tickClock 1000 0))
              (answeredRun (tickClock 1000) sampleTargets 3 200 fuel) = some s ∧
          s.phase = .returned ∧
          readsClock (tickClock 1000) (answeredRun (tickClock 1000) sampleTargets 3 200 fuel) ∧
          requestFails (answeredRun (tickClock 1000) sampleTargets 3 200 fuel) = false ∧
          (passesMade 3 (tickClock 1000 0)
              (answeredRun (tickClock 1000) sampleTargets 3 200 fuel) : Int) ≤ 3) :=
  time_limit_bounds_passes (fun _ => "now") sampleTargets (tickClock 1000) 3 200
    (by decide) (by decide) (fun n _ => by simp only [tickClock]; omega) (by decide)

/-- C7 (as stated) fails. With limit 3: when the request of the first
goroutine fails the process takes the fatal exit and the tick at which the
limit is reached is never made; with 201 targets whose requests stay
unanswered the channel is full after 200 dispatches and the control thread
can neither go on nor make its next tick; under a clock that steps back from
1010 to 1000 before the first tick and then advances one second per tick, 13
passes are made before the return. With limit 1 and a clock whose distance to
`allStart` overflows, the limit is not seen and a pass is made at every tick. -/
theorem time_limit_not_unconditional :
    ((run (fun _ => "now") [sampleTarget] 3 (checkStart [sampleTarget] 1000)
          [.tick 1000, .visit, .spawn, .respond 0 (.error "connection refused")]).map
        (fun s => s.phase) = some .exited ∧
      run (fun _ => "now") [sampleTarget] 3 (checkStart [sampleTarget] 1000)
          [.tick 1000, .visit, .spawn, .respond 0 (.error "connection refused"), .tick 1003]
        = none) ∧
      ((run (fun _ => "now") (List.replicate 201 sampleTarget) 3
            (checkStart (List.replicate 201 sampleTarget) 1000)
            (Action.tick 1000 :: (List.replicate 200 [Action.visit, Action.spawn]).flatten)).map
          (fun s => (s.phase, s.gate.length,
            step (fun _ => "now") (List.replicate 201 sampleTarget) 3 s .visit,
            step (fun _ => "now") (List.replicate 201 sampleTarget) 3 s (.tick 1003)))
        = some (.ranging 200, 200, none, none)) ∧
      ((run (fun _ => "now") [sampleTarget] 3 (checkStart [sampleTarget] (steppedBackClock 0))
            (answeredRun steppedBackClock [sampleTarget] 3 200 20)).map
          (fun s => s.phase) = some .returned ∧
        tickReadings (answeredRun steppedBackClock [sampleTarget] 3 200 20)
          = [1000, 1001, 1002, 1003, 1004, 1005, 1006, 1007, 1008, 1009, 1010, 1011, 1012,
              1013] ∧
        passesMade 3 (steppedBackClock 0) (answeredRun steppedBackClock [sampleTarget] 3 200 20)
          = 13) ∧
      ((run (fun _ => "now") [sampleTarget] 1 (checkStart [sampleTarget] (wrappingClock 0))
            (answeredRun wrappingClock [sampleTarget] 1 200 5)).map
          (fun s => s.phase) = some .head ∧
        passesMade 1 (wrappingClock 0) (answeredRun wrappingClock [sampleTarget] 1 200 5) = 5) := by
  refine ⟨⟨?_, ?_⟩, ?_, ⟨?_, ?_, ?_⟩, ⟨?_, ?_⟩⟩ <;> decide!
end WebStatusChecker
